import Mathlib

/-!
SwingSense firmware (`src/main.cpp`): sampling pipeline.

A shallow embedding of the sampling loop of the SwingSense firmware and the
properties of its header/data framing, stream gate, debouncer, scheduler,
sensor initialisation and sensor decoding.

Modelling conventions.

* `uint32_t` and `unsigned long` (32 bits on the ESP32-S3 target) are natural
  numbers reduced modulo `2^32`; unsigned subtraction is `sub32`.
* `float` values are the rationals they denote.  The division
  `s16(i) / ACC_LSB_PER_G` converts the 16-bit integer to `float` (exact) and
  rounds the quotient to the nearest binary32 value, ties to even (`roundF32`).
* The environment of one `loop()` iteration (clock readings, bus response, pin
  level) is an explicit input record; what the iteration does to the outside
  world is an explicit list of effects.  `Serial` logging is not modelled.
-/

namespace SwingSense

/-! ## Constants -/

/-- Arduino `HIGH`. -/
def HIGH : Int := 1

/-- Arduino `LOW`. -/
def LOW : Int := 0

def REG_PWR_MGMT_1 : Nat := 0x6B
def REG_ACCEL_CONFIG : Nat := 0x1C
def REG_GYRO_CONFIG : Nat := 0x1B
def REG_ACCEL_XOUT_H : Nat := 0x3B
def REG_WHO_AM_I : Nat := 0x75

/-- Scale of the accelerometer at ±2 g, in LSB per g. -/
def ACC_LSB_PER_G : ℚ := 16384

/-- Scale of the gyroscope at ±250 dps, in LSB per degree/second. -/
def GYR_LSB_PER_DPS : ℚ := 131

/-- Sampling period in milliseconds (about 40 Hz). -/
def PERIOD_MS : Nat := 25

/-- Debounce settle time in milliseconds. -/
def DEBOUNCE_MS : Nat := 100

/-! ## 32-bit unsigned arithmetic -/

/-- Two to the power 32. -/
def U32 : Nat := 4294967296

/-- Value of a natural number as a `uint32_t`. -/
def u32 (x : Nat) : Nat := x % U32

/-- Subtraction of `uint32_t` values: `a - b` modulo `2^32`. -/
def sub32 (a b : Nat) : Nat := (a % U32 + (U32 - b % U32)) % U32

/-! ## Bus and sensor driver -/

/-- What the two-wire bus answers to one register read: the status of
`Wire.endTransmission(false)`, the count returned by `Wire.requestFrom`, and the
value of the `k`-th call of `Wire.read()`. -/
structure BusRead where
  endTransmission : Nat
  requestFrom : Nat
  read : Nat → Int

/-- `i2cReadBytes(reg, buf, len)`: `none` when the function returns `false`,
otherwise the `len` bytes stored in `buf` (each `Wire.read()` result truncated
to `uint8_t`). -/
def i2cReadBytes (bus : BusRead) (len : Nat) : Option (List Nat) :=
  if bus.endTransmission ≠ 0 then none
  else if bus.requestFrom ≠ len then none
  else some ((List.range len).map fun k => (bus.read k % 256).toNat)

/-- Conversion of an `int` value to `int16_t`. -/
def toInt16 (n : Nat) : Int :=
  if n % 65536 < 32768 then ((n % 65536 : Nat) : Int) else ((n % 65536 : Nat) : Int) - 65536

/-- The lambda `s16` of `icmRead`: `(int16_t)((raw[i] << 8) | raw[i+1])`. -/
def s16 (raw : List Nat) (i : Nat) : Int :=
  toInt16 ((raw.getD i 0 <<< 8) ||| raw.getD (i + 1) 0)

/-- One converted sample: acceleration in g, angular rate in degrees/second. -/
structure Sample where
  ax : ℚ
  ay : ℚ
  az : ℚ
  gx : ℚ
  gy : ℚ
  gz : ℚ
deriving DecidableEq

/-- Nearest integer, ties to even. -/
def roundHalfEven (x : ℚ) : ℤ :=
  if x - ⌊x⌋ < 1 / 2 then ⌊x⌋
  else if 1 / 2 < x - ⌊x⌋ then ⌊x⌋ + 1
  else if ⌊x⌋ % 2 = 0 then ⌊x⌋ else ⌊x⌋ + 1

/-- Exponent of the binary32 binade of `q`: the floor of `log2 |q|`, and `-126`
for zero and the subnormal range. -/
def f32Exponent (q : ℚ) : ℤ := max (Int.log 2 |q|) (-126)

/-- Rounding to the nearest binary32 value, ties to even: the multiple of
`2^(e-23)` nearest to `q`, `e` being the exponent of `q`.  (For `|q|` below
`2^128`; no quotient of a 16-bit integer by 131 or 16384 is larger.) -/
def roundF32 (q : ℚ) : ℚ :=
  (roundHalfEven (q / 2 ^ (f32Exponent q - 23)) : ℚ) * 2 ^ (f32Exponent q - 23)

/-- The C expression `z / d` for an `int16_t` `z` and a `float` `d`: `z` is
converted to `float` exactly and the quotient is rounded to binary32. -/
def divF32 (z : Int) (d : ℚ) : ℚ := roundF32 ((z : ℚ) / d)

/-- Conversion part of `icmRead`, applied to the 14-byte block `raw`. -/
def convert (raw : List Nat) : Sample :=
  { ax := divF32 (s16 raw 0) ACC_LSB_PER_G
    ay := divF32 (s16 raw 2) ACC_LSB_PER_G
    az := divF32 (s16 raw 4) ACC_LSB_PER_G
    gx := divF32 (s16 raw 8) GYR_LSB_PER_DPS
    gy := divF32 (s16 raw 10) GYR_LSB_PER_DPS
    gz := divF32 (s16 raw 12) GYR_LSB_PER_DPS }

/-- `icmRead`: `none` when it returns `false`, otherwise the six outputs. -/
def icmRead (bus : BusRead) : Option Sample :=
  match i2cReadBytes bus 14 with
  | none => none
  | some raw => some (convert raw)

/-- The signed 16-bit word of the register layout, in the words of the
specification: big-endian two's complement, `hi*256 + lo`, minus 65536 when
`hi >= 128`. -/
def specWord (hi lo : Nat) : Int :=
  if hi ≥ 128 then ((hi * 256 + lo : Nat) : Int) - 65536 else ((hi * 256 + lo : Nat) : Int)

/-! ## Pipeline state, payloads and effects -/

/-- The globals read and written by `loop()` and `CbCtrl::onWrite`, and the
function-local static `last`.  `imuChar` records whether the pointer is
non-null. -/
structure State where
  imuChar : Bool
  streamOn : Bool
  isRecording : Bool
  last_switch_state : Int
  last_debounce_time : Nat
  last : Nat
deriving DecidableEq

/-- State at boot, after `setup()` created the notification characteristic. -/
def initState : State :=
  { imuChar := true, streamOn := true, isRecording := false,
    last_switch_state := HIGH, last_debounce_time := 0, last := 0 }

/-- A value notified on the IMU characteristic: `setValue(&hdrByte, 1)` or
`setValue((uint8_t*)vals, sizeof(vals))`. -/
inductive Payload where
  | header (hdrByte : Nat)
  | data (vals : List ℚ)
deriving DecidableEq

/-- Number of bytes of a payload; a `float` takes 4 bytes. -/
def Payload.size : Payload → Nat
  | Payload.header _ => 1
  | Payload.data vals => 4 * vals.length

/-- Observable actions of `loop()`. -/
inductive Effect where
  | delay (ms : Nat)
  | sensorRead
  | pinRead
  | notify (p : Payload)
deriving DecidableEq

/-- The payloads handed to the notification sink, in order. -/
def emitted : List Effect → List Payload
  | [] => []
  | Effect.notify p :: es => p :: emitted es
  | _ :: es => emitted es

/-- Environment of one `loop()` iteration: the clock at the three calls of
`millis()` (lines 180, 195 and 201, each read only if control reaches it), the
bus response to the burst read, and the level `digitalRead(RECORDING_PIN)`
returns.  The clock fields count elapsed milliseconds; `millis()` returns their
low 32 bits, which is what `loop` uses (`u32`). -/
structure LoopInput where
  now : Nat
  bus : BusRead
  pin : Int
  tDebounce : Nat
  tCheck : Nat

/-! ## The control handler and the loop -/

/-- `CbCtrl::onWrite` with `v` the written value. -/
def onWrite (s : State) (v : List Nat) : State :=
  if v.length > 0 then { s with streamOn := decide (v.getD 0 0 ≠ 0) } else s

/-- Lines 193-197: sample the pin and restart the debounce clock on a change. -/
def debounceUpdate (s : State) (i : LoopInput) : State :=
  if i.pin ≠ s.last_switch_state then
    { s with last_debounce_time := u32 i.tDebounce, last_switch_state := i.pin }
  else s

/-- Result of the acceptance block (lines 199-216): the state, the local
`justToggled`, and what the block sent. -/
structure Accept where
  state : State
  justToggled : Bool
  sent : List Effect

/-- Lines 199-216, for a state `s` whose debounce window is already updated:
once the settle time is exceeded the sampled level is accepted, and a change of
`isRecording` sends the header byte. -/
def acceptLevel (s : State) (i : LoopInput) : Accept :=
  if DEBOUNCE_MS < sub32 (u32 i.tCheck) s.last_debounce_time then
    let newRecording := decide (i.pin = LOW)
    if newRecording ≠ s.isRecording then
      let s1 := { s with isRecording := newRecording }
      { state := s1, justToggled := true,
        sent := if s1.imuChar then
                  [Effect.notify (Payload.header (if s1.isRecording then 0x01 else 0x02))]
                else [] }
    else { state := s, justToggled := false, sent := [] }
  else { state := s, justToggled := false, sent := [] }

/-- Lines 218-222: the data packet, sent while recording and not on the toggle
iteration. -/
def sendData (a : Accept) (vals : List ℚ) : List Effect :=
  if a.state.isRecording && !a.justToggled && a.state.imuChar then
    [Effect.notify (Payload.data vals)]
  else []

/-- One iteration of `loop()`. -/
def loop (s : State) (i : LoopInput) : State × List Effect :=
  if s.streamOn = false then (s, [Effect.delay 5])
  else if sub32 (u32 i.now) s.last < PERIOD_MS then (s, [Effect.delay 1])
  else
    let s1 := { s with last := u32 i.now }
    match icmRead i.bus with
    | none => (s1, [Effect.sensorRead])
    | some v =>
      let vals := [v.ax, v.ay, v.az, v.gx, v.gy, v.gz]
      let a := acceptLevel (debounceUpdate s1 i) i
      (a.state, Effect.sensorRead :: Effect.pinRead :: (a.sent ++ sendData a vals))

/-- Consecutive iterations of `loop()`, one per input. -/
def runLoop : State → List LoopInput → State × List Effect
  | s, [] => (s, [])
  | s, i :: is =>
    let r := loop s i
    let r2 := runLoop r.1 is
    (r2.1, r.2 ++ r2.2)

/-- Value of `isRecording` after each iteration of a run. -/
def recTrace : State → List LoopInput → List Bool
  | _, [] => []
  | s, i :: is => (loop s i).1.isRecording :: recTrace (loop s i).1 is

/-- An iteration that passes the gate and the period check and whose sensor
read succeeds. -/
def successful (s : State) (i : LoopInput) : Bool :=
  s.streamOn && decide (PERIOD_MS ≤ sub32 (u32 i.now) s.last) && (icmRead i.bus).isSome

/-- A bus response delivering the given bytes to a 14-byte burst read. -/
def busOk (bytes : List Int) : BusRead :=
  { endTransmission := 0, requestFrom := 14, read := fun k => bytes.getD k 0 }

/-- A bus response whose address phase is not acknowledged. -/
def busFail : BusRead :=
  { endTransmission := 2, requestFrom := 0, read := fun _ => -1 }

/-! ## Runs used by the debounce properties -/

/-- The clock readings of the iterations, taken as elapsed milliseconds (of which
`millis()` returns the low 32 bits), are in chronological order from `prev` on
and none is later than `DEBOUNCE_MS` after `t0`. -/
def withinSettle (t0 : Nat) : Nat → List LoopInput → Bool
  | _, [] => true
  | prev, i :: is =>
    decide (prev ≤ i.tDebounce) && decide (i.tDebounce ≤ i.tCheck) &&
      decide (i.tCheck ≤ t0 + DEBOUNCE_MS) && withinSettle t0 i.tCheck is

/-- Every iteration of the run, in the state it starts from, either is not
successful or finds `millis() - t0 <= DEBOUNCE_MS` at its debounce check. -/
def quiet (t0 : Nat) : State → List LoopInput → Bool
  | _, [] => true
  | s, i :: is =>
    (!(successful s i) || decide (sub32 (u32 i.tCheck) (u32 t0) ≤ DEBOUNCE_MS)) &&
      quiet t0 (loop s i).1 is

/-- Number of positions of `bs` whose value differs from the value before it,
`b` being the value before the first. -/
def changes : Bool → List Bool → Nat
  | _, [] => 0
  | b, c :: cs => (if c ≠ b then 1 else 0) + changes c cs

/-! ## Concrete inputs used in the examples -/

/-- A 14-byte register block: 1 g on X, -1 LSB on Y, -2 g on Z, a temperature
word, then 131, -131 and 32767 LSB of angular rate. -/
def sampleBytes : List Int :=
  [0x40, 0x00, 0xFF, 0xFF, 0x80, 0x00, 0x12, 0x34, 0x00, 0x83, 0xFF, 0x7D, 0x7F, 0xFF]

/-- A 14-byte register block with the largest word on the X axes and the least
word on the Y axes. -/
def extremeBytes : List Int :=
  [0x7F, 0xFF, 0x80, 0x00, 0x00, 0x00, 0x00, 0x00, 0x7F, 0xFF, 0x80, 0x00, 0x00, 0x00]

/-- An iteration at clock time `t` whose sensor read succeeds, with the pin at
level `pin`. -/
def tickAt (t : Nat) (pin : Int) : LoopInput :=
  { now := t, bus := busOk sampleBytes, pin := pin, tDebounce := t, tCheck := t }

/-- An iteration at clock time `t` whose sensor read fails. -/
def failAt (t : Nat) (pin : Int) : LoopInput :=
  { now := t, bus := busFail, pin := pin, tDebounce := t, tCheck := t }

/-- Idle, with the switch already sampled LOW at time 0 but not yet accepted. -/
def pendingLow : State := { initState with last_switch_state := LOW }

/-- Recording, with the switch settled at LOW. -/
def recordingLow : State :=
  { initState with isRecording := true, last_switch_state := LOW }

/-- Recording with the gate closed. -/
def gatedOff : State := { recordingLow with streamOn := false }

/-- Recording, with a change to HIGH sampled at time 155 and not yet accepted. -/
def pendingHigh : State :=
  { imuChar := true, streamOn := true, isRecording := true,
    last_switch_state := HIGH, last_debounce_time := 155, last := 155 }

/-! ## Runs with control messages -/

/-- One event of a run: an iteration of `loop()` or a write to the control
characteristic. -/
inductive Step where
  | tick (i : LoopInput)
  | ctrl (v : List Nat)

/-- Effect of one event; `onWrite` performs none of the effects of `Effect`. -/
def step (s : State) : Step → State × List Effect
  | Step.tick i => loop s i
  | Step.ctrl v => (onWrite s v, [])

/-- A run: iterations of `loop()` interleaved with control writes. -/
def run : State → List Step → State × List Effect
  | s, [] => (s, [])
  | s, e :: es =>
    let r := step s e
    let r2 := run r.1 es
    (r2.1, r.2 ++ r2.2)

/-- An iteration that passes the gate and the period check. -/
def eligible (s : State) (i : LoopInput) : Bool :=
  s.streamOn && decide (PERIOD_MS ≤ sub32 (u32 i.now) s.last)

/-- No iteration of the run is eligible in the state it starts from. -/
def noTick : State → List Step → Bool
  | _, [] => true
  | s, Step.tick i :: es => !(eligible s i) && noTick (loop s i).1 es
  | s, Step.ctrl v :: es => noTick (onWrite s v) es

/-! ## Output framing -/

/-- Recogniser of the prefixes of `(H1 D* H2)*`, where `H1 = [0x01]`,
`H2 = [0x02]` and `D` is a data payload of 24 bytes; the flag tells whether a
`H1` is open. -/
def framed : Bool → List Payload → Bool
  | _, [] => true
  | isOpen, Payload.header b :: ps =>
    if isOpen then (b == 0x02) && framed false ps else (b == 0x01) && framed true ps
  | isOpen, Payload.data vals :: ps =>
    isOpen && decide ((Payload.data vals).size = 24) && framed true ps

/-- The words of `(H1 D* H2)*`. -/
inductive Frames : List Payload → Prop where
  | nil : Frames []
  | frame (ds : List (List ℚ)) (w : List Payload) :
      (∀ d ∈ ds, (Payload.data d).size = 24) → Frames w →
      Frames (Payload.header 0x01 :: (ds.map Payload.data ++ Payload.header 0x02 :: w))

/-! ## Sensor initialisation -/

/-- `i2cWrite(reg, val)`, given the status `Wire.endTransmission()` returns; the
register and value only go out on the bus. -/
def i2cWrite (_reg _val : Nat) (status : Nat) : Bool := decide (status = 0)

/-- What the bus answers during `icmInit`: the `endTransmission` status of each
of the three register writes, and the answer to the identity read.  An answer
is used only if control reaches its transaction. -/
structure InitBus where
  w1 : Nat
  w2 : Nat
  w3 : Nat
  ident : BusRead

/-- Actions of `icmInit`, in order. -/
inductive InitEvent where
  | write (reg val : Nat)
  | read (reg len : Nat)
  | delay (ms : Nat)
deriving DecidableEq

/-- Return value of `icmInit`, the value left in `who`, and what it did. -/
structure InitResult where
  ok : Bool
  who : Nat
  events : List InitEvent

/-- The function `icmInit`. -/
def icmInit (bus : InitBus) : InitResult :=
  if ¬ i2cWrite REG_PWR_MGMT_1 0x01 bus.w1 = true then
    { ok := false, who := 0, events := [InitEvent.write REG_PWR_MGMT_1 0x01] }
  else if ¬ i2cWrite REG_ACCEL_CONFIG 0x00 bus.w2 = true then
    { ok := false, who := 0,
      events := [InitEvent.write REG_PWR_MGMT_1 0x01, InitEvent.delay 50,
        InitEvent.write REG_ACCEL_CONFIG 0x00] }
  else if ¬ i2cWrite REG_GYRO_CONFIG 0x00 bus.w3 = true then
    { ok := false, who := 0,
      events := [InitEvent.write REG_PWR_MGMT_1 0x01, InitEvent.delay 50,
        InitEvent.write REG_ACCEL_CONFIG 0x00, InitEvent.write REG_GYRO_CONFIG 0x00] }
  else
    match i2cReadBytes bus.ident 1 with
    | none =>
      { ok := false, who := 0,
        events := [InitEvent.write REG_PWR_MGMT_1 0x01, InitEvent.delay 50,
          InitEvent.write REG_ACCEL_CONFIG 0x00, InitEvent.write REG_GYRO_CONFIG 0x00,
          InitEvent.delay 10, InitEvent.read REG_WHO_AM_I 1] }
    | some buf =>
      { ok := true, who := buf.getD 0 0,
        events := [InitEvent.write REG_PWR_MGMT_1 0x01, InitEvent.delay 50,
          InitEvent.write REG_ACCEL_CONFIG 0x00, InitEvent.write REG_GYRO_CONFIG 0x00,
          InitEvent.delay 10, InitEvent.read REG_WHO_AM_I 1] }

/-- The bus transactions among the actions of `icmInit`. -/
def busTxns : List InitEvent → List InitEvent
  | [] => []
  | InitEvent.delay _ :: es => busTxns es
  | e :: es => e :: busTxns es

/-- A bus on which every transaction of `icmInit` succeeds and the identity
register reads `who`. -/
def initBusOk (who : Int) : InitBus :=
  { w1 := 0, w2 := 0, w3 := 0,
    ident := { endTransmission := 0, requestFrom := 1, read := fun _ => who } }

/-! ## One iteration, branch by branch -/

theorem loop_gated (s : State) (i : LoopInput) (h : s.streamOn = false) :
    loop s i = (s, [Effect.delay 5]) := by
  simp [loop, h]

theorem loop_early (s : State) (i : LoopInput) (h : s.streamOn = true)
    (hp : sub32 (u32 i.now) s.last < PERIOD_MS) :
    loop s i = (s, [Effect.delay 1]) := by
  simp [loop, h, hp]

theorem loop_failed (s : State) (i : LoopInput) (h : s.streamOn = true)
    (hp : PERIOD_MS ≤ sub32 (u32 i.now) s.last) (hr : icmRead i.bus = none) :
    loop s i = ({ s with last := u32 i.now }, [Effect.sensorRead]) := by
  simp [loop, h, Nat.not_lt.mpr hp, hr]

theorem loop_ok (s : State) (i : LoopInput) (v : Sample) (h : s.streamOn = true)
    (hp : PERIOD_MS ≤ sub32 (u32 i.now) s.last) (hr : icmRead i.bus = some v) :
    loop s i =
      ((acceptLevel (debounceUpdate { s with last := u32 i.now } i) i).state,
        Effect.sensorRead :: Effect.pinRead ::
          ((acceptLevel (debounceUpdate { s with last := u32 i.now } i) i).sent ++
            sendData (acceptLevel (debounceUpdate { s with last := u32 i.now } i) i)
              [v.ax, v.ay, v.az, v.gx, v.gy, v.gz])) := by
  simp [loop, h, Nat.not_lt.mpr hp, hr]

/-- The four ways one iteration can go. -/
theorem loop_branches (s : State) (i : LoopInput) :
    (s.streamOn = false ∧ loop s i = (s, [Effect.delay 5])) ∨
    (s.streamOn = true ∧ sub32 (u32 i.now) s.last < PERIOD_MS ∧
      loop s i = (s, [Effect.delay 1])) ∨
    (s.streamOn = true ∧ PERIOD_MS ≤ sub32 (u32 i.now) s.last ∧ icmRead i.bus = none ∧
      loop s i = ({ s with last := u32 i.now }, [Effect.sensorRead])) ∨
    (∃ v, s.streamOn = true ∧ PERIOD_MS ≤ sub32 (u32 i.now) s.last ∧
      icmRead i.bus = some v ∧
      loop s i =
        ((acceptLevel (debounceUpdate { s with last := u32 i.now } i) i).state,
          Effect.sensorRead :: Effect.pinRead ::
            ((acceptLevel (debounceUpdate { s with last := u32 i.now } i) i).sent ++
              sendData (acceptLevel (debounceUpdate { s with last := u32 i.now } i) i)
                [v.ax, v.ay, v.az, v.gx, v.gy, v.gz]))) := by
  rcases Bool.eq_false_or_eq_true s.streamOn with hs | hs
  · rcases Nat.lt_or_ge (sub32 (u32 i.now) s.last) PERIOD_MS with hp | hp
    · exact Or.inr (Or.inl ⟨hs, hp, loop_early s i hs hp⟩)
    · cases hr : icmRead i.bus with
      | none => exact Or.inr (Or.inr (Or.inl ⟨hs, hp, rfl, loop_failed s i hs hp hr⟩))
      | some v => exact Or.inr (Or.inr (Or.inr ⟨v, hs, hp, rfl, loop_ok s i v hs hp hr⟩))
  · exact Or.inl ⟨hs, loop_gated s i hs⟩

/-- Fields the debounce update leaves alone. -/
theorem debounceUpdate_frame (s : State) (i : LoopInput) :
    (debounceUpdate s i).isRecording = s.isRecording ∧
    (debounceUpdate s i).imuChar = s.imuChar ∧
    (debounceUpdate s i).streamOn = s.streamOn ∧
    (debounceUpdate s i).last = s.last := by
  unfold debounceUpdate
  split <;> simp

/-- What one iteration sends, by whether `isRecording` changes: nothing or one
data packet when it does not, and exactly the header (if the characteristic
exists) when it does. -/
theorem loop_emitted (s : State) (i : LoopInput) :
    ((loop s i).1.isRecording = s.isRecording ∧
      (emitted (loop s i).2 = [] ∨
        ∃ v, icmRead i.bus = some v ∧ s.isRecording = true ∧ s.imuChar = true ∧
          emitted (loop s i).2 = [Payload.data [v.ax, v.ay, v.az, v.gx, v.gy, v.gz]])) ∨
    ((loop s i).1.isRecording ≠ s.isRecording ∧
      emitted (loop s i).2 =
        if s.imuChar then
          [Payload.header (if (loop s i).1.isRecording then 0x01 else 0x02)]
        else []) := by
  rcases loop_branches s i with ⟨_, h⟩ | ⟨_, _, h⟩ | ⟨_, _, _, h⟩ | ⟨v, _, _, hv, h⟩
  · left; simp [h, emitted]
  · left; simp [h, emitted]
  · left; simp [h, emitted]
  · rw [h]
    simp only [acceptLevel, debounceUpdate, sendData]
    split_ifs <;> simp_all [emitted]

/-- A header among the payloads of an iteration means `isRecording` changed. -/
theorem loop_header_changes (s : State) (i : LoopInput) (b : Nat)
    (hb : Payload.header b ∈ emitted (loop s i).2) :
    (loop s i).1.isRecording ≠ s.isRecording := by
  rcases loop_emitted s i with ⟨_, hem | ⟨v, _, _, _, hem⟩⟩ | ⟨hne, _⟩
  · rw [hem] at hb; simp at hb
  · rw [hem] at hb; simp at hb
  · exact hne

/-! ## Header and data framing (C1-C4) -/

/-- C1 (header exclusivity): with the notification characteristic present, an
iteration of `loop()` that changes `isRecording` hands exactly one payload to
the sink; it is a header of one byte, and no data payload is sent in that
iteration. -/
theorem header_exclusivity (s : State) (i : LoopInput) (himu : s.imuChar = true)
    (hch : (loop s i).1.isRecording ≠ s.isRecording) :
    ∃ b, emitted (loop s i).2 = [Payload.header b] ∧ (Payload.header b).size = 1 ∧
      (∀ vals, Payload.data vals ∉ emitted (loop s i).2) ∧
      ∀ p ∈ emitted (loop s i).2, p.size ≠ 24 := by
  rcases loop_emitted s i with ⟨hsame, _⟩ | ⟨_, hem⟩
  · exact absurd hsame hch
  · rw [himu] at hem
    refine ⟨_, by simpa using hem, rfl, ?_, ?_⟩
    · intro vals; rw [hem]; simp
    · intro p hp; rw [hem] at hp; simp at hp; subst hp; simp [Payload.size]

/-- C2 (no spurious headers): an iteration of `loop()` sends a header only if it
changes `isRecording`; when `isRecording` is the same after the iteration as
before it, no header is among the payloads sent. -/
theorem no_spurious_header (s : State) (i : LoopInput) :
    (∀ b, Payload.header b ∈ emitted (loop s i).2 →
      (loop s i).1.isRecording ≠ s.isRecording) ∧
    ((loop s i).1.isRecording = s.isRecording →
      ∀ b, Payload.header b ∉ emitted (loop s i).2) := by
  exact ⟨loop_header_changes s i, fun hsame b hb => loop_header_changes s i b hb hsame⟩

/-- C3 (header value): on an iteration that changes `isRecording` (with the
characteristic present) the payloads sent are the single byte `0x01` when
`isRecording` became true and the single byte `0x02` when it became false; and
any header sent by any iteration is `0x01` on entering Recording or `0x02` on
entering Idle. -/
theorem header_value (s : State) (i : LoopInput) :
    (s.imuChar = true → (loop s i).1.isRecording ≠ s.isRecording →
      ((loop s i).1.isRecording = true → emitted (loop s i).2 = [Payload.header 0x01]) ∧
      ((loop s i).1.isRecording = false → emitted (loop s i).2 = [Payload.header 0x02])) ∧
    (∀ b, Payload.header b ∈ emitted (loop s i).2 →
      (b = 0x01 ∧ s.isRecording = false ∧ (loop s i).1.isRecording = true) ∨
      (b = 0x02 ∧ s.isRecording = true ∧ (loop s i).1.isRecording = false)) := by
  constructor
  · intro himu hch
    rcases loop_emitted s i with ⟨hsame, _⟩ | ⟨_, hem⟩
    · exact absurd hsame hch
    · rw [himu] at hem
      constructor
      · intro h; rw [hem]; simp [h]
      · intro h; rw [hem]; simp [h]
  · intro b hb
    rcases loop_emitted s i with ⟨_, hem | ⟨v, _, _, _, hem⟩⟩ | ⟨hne, hem⟩
    · rw [hem] at hb; simp at hb
    · rw [hem] at hb; simp at hb
    · rw [hem] at hb
      cases himu : s.imuChar with
      | false => simp [himu] at hb
      | true =>
        simp only [himu, if_true, List.mem_singleton, Payload.header.injEq] at hb
        cases hnew : (loop s i).1.isRecording with
        | true =>
          left
          refine ⟨by simpa [hnew] using hb, ?_, rfl⟩
          cases hold : s.isRecording with
          | false => rfl
          | true => exact absurd (hnew.trans hold.symm) hne
        | false =>
          right
          refine ⟨by simpa [hnew] using hb, ?_, rfl⟩
          cases hold : s.isRecording with
          | true => rfl
          | false => exact absurd (hnew.trans hold.symm) hne

theorem emitted_append (xs ys : List Effect) :
    emitted (xs ++ ys) = emitted xs ++ emitted ys := by
  induction xs with
  | nil => rfl
  | cons e es ih => cases e <;> simp [emitted, ih]

/-- Every payload of one iteration is one byte or 24 bytes long. -/
theorem loop_payload_size (s : State) (i : LoopInput) (p : Payload)
    (hp : p ∈ emitted (loop s i).2) : p.size = 1 ∨ p.size = 24 := by
  rcases loop_emitted s i with ⟨_, hem | ⟨v, _, _, _, hem⟩⟩ | ⟨_, hem⟩
  · rw [hem] at hp; simp at hp
  · rw [hem] at hp; simp at hp; subst hp; right; simp [Payload.size]
  · rw [hem] at hp
    cases himu : s.imuChar with
    | false => simp [himu] at hp
    | true => simp [himu] at hp; subst hp; left; simp [Payload.size]

/-- C4 (data emission rule): on an eligible iteration (gate on, period elapsed,
sensor read succeeded, characteristic present) that does not change
`isRecording`, the payloads sent are exactly the one data packet holding this
iteration's `ax, ay, az, gx, gy, gz` (24 bytes) when recording, and none when
idle; and every payload any run of `loop()` hands to the sink has length 1 or
24. -/
theorem data_emission_rule :
    (∀ (s : State) (i : LoopInput) (v : Sample),
      s.streamOn = true → PERIOD_MS ≤ sub32 (u32 i.now) s.last →
      icmRead i.bus = some v → s.imuChar = true →
      (loop s i).1.isRecording = s.isRecording →
      (s.isRecording = true →
        emitted (loop s i).2 = [Payload.data [v.ax, v.ay, v.az, v.gx, v.gy, v.gz]] ∧
        (Payload.data [v.ax, v.ay, v.az, v.gx, v.gy, v.gz]).size = 24) ∧
      (s.isRecording = false → emitted (loop s i).2 = [])) ∧
    (∀ (s : State) (is : List LoopInput) (p : Payload),
      p ∈ emitted (runLoop s is).2 → p.size = 1 ∨ p.size = 24) := by
  constructor
  · intro s i v hs hp hv himu hsame
    rw [loop_ok s i v hs hp hv] at hsame ⊢
    simp only [acceptLevel, debounceUpdate, sendData] at hsame ⊢
    constructor
    · intro hrec
      refine ⟨?_, by simp [Payload.size]⟩
      split_ifs at hsame ⊢ <;> simp_all [emitted]
    · intro hrec
      split_ifs at hsame ⊢ <;> simp_all [emitted]
  · intro s is
    induction is generalizing s with
    | nil => intro p hp; simp [runLoop, emitted] at hp
    | cons i is ih =>
      intro p hp
      simp only [runLoop, emitted_append, List.mem_append] at hp
      rcases hp with hp | hp
      · exact loop_payload_size s i p hp
      · exact ih _ p hp

/-! ## Stream gate (C5, C6) -/

/-- C5 (gate freeze): from a state with `streamOn == false`, any number of
`loop()` iterations, whatever the clock, pin and sensor would answer, leave
every state variable as it was and do nothing but `delay(5)`: no sensor read,
no pin sample, no payload.  A later control message with a non-zero first byte
therefore resumes from the same `isRecording`, `last_switch_state`,
`last_debounce_time` and `last`. -/
theorem gate_freeze (s : State) (is : List LoopInput) (hoff : s.streamOn = false) :
    runLoop s is = (s, List.replicate is.length (Effect.delay 5)) ∧
    Effect.sensorRead ∉ (runLoop s is).2 ∧
    Effect.pinRead ∉ (runLoop s is).2 ∧
    emitted (runLoop s is).2 = [] ∧
    ∀ (b : Nat) (rest : List Nat), b ≠ 0 →
      onWrite (runLoop s is).1 (b :: rest) = { s with streamOn := true } := by
  have hrun : runLoop s is = (s, List.replicate is.length (Effect.delay 5)) := by
    induction is with
    | nil => rfl
    | cons i is ih => simp [runLoop, loop_gated s i hoff, ih, List.replicate_succ]
  have hem : ∀ n, emitted (List.replicate n (Effect.delay 5)) = [] := by
    intro n
    induction n with
    | zero => rfl
    | succ n ih => simp [List.replicate_succ, emitted, ih]
  refine ⟨hrun, ?_, ?_, ?_, ?_⟩
  · rw [hrun]; simp [List.mem_replicate]
  · rw [hrun]; simp [List.mem_replicate]
  · rw [hrun]; exact hem _
  · intro b rest hb
    rw [hrun]
    simp [onWrite, hb]

/-- C6 (control-message decoding): an empty control message leaves the state
unchanged; a non-empty one sets `streamOn` to `v[0] != 0`, whatever the gate
was before and whatever bytes follow the first; `onWrite` changes no other state
variable. -/
theorem onWrite_decoding (s : State) (v : List Nat) :
    (v.length = 0 → onWrite s v = s) ∧
    (∀ (b : Nat) (rest : List Nat), v = b :: rest →
      ((onWrite s v).streamOn = true ↔ b ≠ 0) ∧
      ∀ (s2 : State) (rest2 : List Nat),
        (onWrite s2 (b :: rest2)).streamOn = (onWrite s v).streamOn) ∧
    (onWrite s v).isRecording = s.isRecording ∧
    (onWrite s v).last_switch_state = s.last_switch_state ∧
    (onWrite s v).last_debounce_time = s.last_debounce_time ∧
    (onWrite s v).last = s.last ∧
    (onWrite s v).imuChar = s.imuChar := by
  refine ⟨?_, ?_, ?_⟩
  · intro h; simp [onWrite, h]
  · intro b rest hv
    subst hv
    simp [onWrite]
  · unfold onWrite
    split <;> simp

/-! ## Instances at concrete inputs -/

/-- Instance of C1: the pending LOW level is accepted at time 125. -/
theorem header_exclusivity_witness :
    pendingLow.imuChar = true ∧
    (loop pendingLow (tickAt 125 LOW)).1.isRecording ≠ pendingLow.isRecording ∧
    ∃ b, emitted (loop pendingLow (tickAt 125 LOW)).2 = [Payload.header b] ∧
      (Payload.header b).size = 1 ∧
      (∀ vals, Payload.data vals ∉ emitted (loop pendingLow (tickAt 125 LOW)).2) ∧
      ∀ p ∈ emitted (loop pendingLow (tickAt 125 LOW)).2, p.size ≠ 24 :=
  ⟨rfl, by decide, header_exclusivity pendingLow (tickAt 125 LOW) rfl (by decide)⟩

/-- Instance of C2: a recording iteration that keeps `isRecording`. -/
theorem no_spurious_header_witness :
    (loop recordingLow (tickAt 125 LOW)).1.isRecording = recordingLow.isRecording ∧
    ∀ b, Payload.header b ∉ emitted (loop recordingLow (tickAt 125 LOW)).2 :=
  ⟨by decide, (no_spurious_header recordingLow (tickAt 125 LOW)).2 (by decide)⟩

/-- Instance of C3: entering Recording sends `0x01`. -/
theorem header_value_witness :
    (loop pendingLow (tickAt 125 LOW)).1.isRecording = true ∧
    emitted (loop pendingLow (tickAt 125 LOW)).2 = [Payload.header 0x01] :=
  ⟨by decide,
    ((header_value pendingLow (tickAt 125 LOW)).1 rfl (by decide)).1 (by decide)⟩

/-- Instance of C4: a recording iteration sends its sample. -/
theorem data_emission_rule_witness :
    icmRead (tickAt 125 LOW).bus = some (convert (sampleBytes.map Int.toNat)) ∧
    emitted (loop recordingLow (tickAt 125 LOW)).2 =
      [Payload.data
        [(convert (sampleBytes.map Int.toNat)).ax, (convert (sampleBytes.map Int.toNat)).ay,
         (convert (sampleBytes.map Int.toNat)).az, (convert (sampleBytes.map Int.toNat)).gx,
         (convert (sampleBytes.map Int.toNat)).gy, (convert (sampleBytes.map Int.toNat)).gz]] :=
  ⟨rfl,
    ((data_emission_rule.1 recordingLow (tickAt 125 LOW)
      (convert (sampleBytes.map Int.toNat)) rfl (by decide) rfl rfl (by decide)).1 rfl).1⟩

/-- Instance of C5: three iterations with the gate closed, then `[0x01]`. -/
theorem gate_freeze_witness :
    gatedOff.streamOn = false ∧
    runLoop gatedOff [tickAt 125 HIGH, failAt 150 LOW, tickAt 400 HIGH] =
      (gatedOff, [Effect.delay 5, Effect.delay 5, Effect.delay 5]) ∧
    onWrite (runLoop gatedOff [tickAt 125 HIGH, failAt 150 LOW, tickAt 400 HIGH]).1 [1] =
      recordingLow :=
  ⟨rfl,
    (gate_freeze gatedOff [tickAt 125 HIGH, failAt 150 LOW, tickAt 400 HIGH] rfl).1,
    (gate_freeze gatedOff [tickAt 125 HIGH, failAt 150 LOW, tickAt 400 HIGH] rfl).2.2.2.2
      1 [] (by decide)⟩

/-- Instance of C6: an empty message, a zero first byte, a non-zero first byte. -/
theorem onWrite_decoding_witness :
    onWrite recordingLow [] = recordingLow ∧
    ((onWrite recordingLow [0, 7]).streamOn = true ↔ (0 : Nat) ≠ 0) ∧
    ((onWrite gatedOff [3, 0]).streamOn = true ↔ (3 : Nat) ≠ 0) :=
  ⟨(onWrite_decoding recordingLow []).1 rfl,
    ((onWrite_decoding recordingLow [0, 7]).2.1 0 [7] rfl).1,
    ((onWrite_decoding gatedOff [3, 0]).2.1 3 [0] rfl).1⟩


/-! ## Failed sensor read (C7) -/

/-- Iterations that fail the period check change nothing. -/
theorem runLoop_early (s : State) (mid : List LoopInput) (hs : s.streamOn = true)
    (hmid : ∀ j ∈ mid, sub32 (u32 j.now) s.last < PERIOD_MS) :
    runLoop s mid = (s, List.replicate mid.length (Effect.delay 1)) := by
  induction mid with
  | nil => rfl
  | cons j js ih =>
    have hj := loop_early s j hs (hmid j (List.mem_cons_self j js))
    have hjs := ih (fun k hk => hmid k (List.mem_cons_of_mem j hk))
    simp [runLoop, hj, hjs, List.replicate_succ]

theorem emitted_replicate_delay (n ms : Nat) :
    emitted (List.replicate n (Effect.delay ms)) = [] := by
  induction n with
  | zero => rfl
  | succ n ih => simp [List.replicate_succ, emitted, ih]

/-- C7, counterexample to the claim as stated.  The state `pendingHigh` is
reached from boot (recording started, then the switch sampled HIGH at 155 and
not yet accepted).  The read at 180 fails; the next eligible iteration, at 260,
reads the sensor successfully with the pin still at the level sampled before
the failure, while `isRecording` is true, and it sends the header `0x02`, not a
data packet. -/
theorem failed_read_then_header :
    (runLoop initState [tickAt 25 LOW, tickAt 130 LOW, tickAt 155 HIGH]).1 = pendingHigh ∧
    pendingHigh.streamOn = true ∧ pendingHigh.isRecording = true ∧
    pendingHigh.imuChar = true ∧
    PERIOD_MS ≤ sub32 (u32 (failAt 180 HIGH).now) pendingHigh.last ∧
    icmRead (failAt 180 HIGH).bus = none ∧
    PERIOD_MS ≤ sub32 (u32 (tickAt 260 HIGH).now) (loop pendingHigh (failAt 180 HIGH)).1.last ∧
    (icmRead (tickAt 260 HIGH).bus).isSome = true ∧
    (tickAt 260 HIGH).pin = pendingHigh.last_switch_state ∧
    (loop pendingHigh (failAt 180 HIGH)).1.isRecording = true ∧
    emitted (loop (loop pendingHigh (failAt 180 HIGH)).1 (tickAt 260 HIGH)).2 =
      [Payload.header 0x02] ∧
    ∀ vals, Payload.data vals ∉
      emitted (loop (loop pendingHigh (failAt 180 HIGH)).1 (tickAt 260 HIGH)).2 := by
  have hem : emitted (loop (loop pendingHigh (failAt 180 HIGH)).1 (tickAt 260 HIGH)).2 =
      [Payload.header 0x02] := by decide
  refine ⟨by decide, rfl, rfl, rfl, by decide, rfl, by decide, rfl, rfl, by decide, hem, ?_⟩
  intro vals
  rw [hem]
  simp

/-- C7, as amended.  An iteration that passes the gate and the period check but
whose `icmRead` fails only reads the sensor: it sends nothing and leaves
`isRecording`, `last_switch_state` and `last_debounce_time` unchanged.  If then,
while recording with the characteristic present, the next eligible iteration
(after any iterations that fail the period check) reads the sensor successfully
with the pin at the level sampled before, and that level is LOW or the debounce
interval has not exceeded `DEBOUNCE_MS` at that iteration, it sends exactly this
iteration's 24-byte data packet and no header. -/
theorem failed_read_skips_tick (s : State) (iF : LoopInput) (mid : List LoopInput)
    (iN : LoopInput) (v : Sample)
    (hs : s.streamOn = true) (hp : PERIOD_MS ≤ sub32 (u32 iF.now) s.last)
    (hf : icmRead iF.bus = none) :
    (loop s iF).2 = [Effect.sensorRead] ∧
    emitted (loop s iF).2 = [] ∧
    (loop s iF).1.isRecording = s.isRecording ∧
    (loop s iF).1.last_switch_state = s.last_switch_state ∧
    (loop s iF).1.last_debounce_time = s.last_debounce_time ∧
    (s.imuChar = true → s.isRecording = true →
      (∀ j ∈ mid, sub32 (u32 j.now) (u32 iF.now) < PERIOD_MS) →
      PERIOD_MS ≤ sub32 (u32 iN.now) (u32 iF.now) →
      icmRead iN.bus = some v →
      iN.pin = s.last_switch_state →
      (iN.pin = LOW ∨ sub32 (u32 iN.tCheck) s.last_debounce_time ≤ DEBOUNCE_MS) →
      emitted (runLoop (loop s iF).1 mid).2 = [] ∧
      emitted (loop (runLoop (loop s iF).1 mid).1 iN).2 =
        [Payload.data [v.ax, v.ay, v.az, v.gx, v.gy, v.gz]] ∧
      (Payload.data [v.ax, v.ay, v.az, v.gx, v.gy, v.gz]).size = 24 ∧
      ∀ b, Payload.header b ∉ emitted (loop (runLoop (loop s iF).1 mid).1 iN).2) := by
  have hl := loop_failed s iF hs hp hf
  refine ⟨by rw [hl], by rw [hl]; rfl, by rw [hl], by rw [hl], by rw [hl], ?_⟩
  intro himu hrec hmid hpN hv hpin hsettled
  rw [hl]
  have hrun := runLoop_early { s with last := u32 iF.now } mid hs hmid
  have hdata : emitted (loop { s with last := u32 iF.now } iN).2 =
      [Payload.data [v.ax, v.ay, v.az, v.gx, v.gy, v.gz]] := by
    rw [loop_ok { s with last := u32 iF.now } iN v hs hpN hv]
    simp only [acceptLevel, debounceUpdate, sendData]
    rcases hsettled with hlow | hwin
    · split_ifs <;> simp_all [emitted]
    · have hnot : ¬ DEBOUNCE_MS < sub32 (u32 iN.tCheck) s.last_debounce_time :=
        Nat.not_lt.mpr hwin
      split_ifs <;> simp_all [emitted]
  refine ⟨?_, ?_, by simp [Payload.size], ?_⟩
  · rw [hrun]; exact emitted_replicate_delay _ _
  · rw [hrun]; exact hdata
  · intro b
    rw [hrun]
    show Payload.header b ∉ emitted (loop { s with last := u32 iF.now } iN).2
    rw [hdata]
    simp

/-- Instance of C7 as amended: failed read at 150, early iteration at 160, data
at 175. -/
theorem failed_read_skips_tick_witness :
    emitted (loop recordingLow (failAt 150 LOW)).2 = [] ∧
    (loop recordingLow (failAt 150 LOW)).1.isRecording = true ∧
    emitted (loop (runLoop (loop recordingLow (failAt 150 LOW)).1 [tickAt 160 LOW]).1
        (tickAt 175 LOW)).2 =
      [Payload.data
        [(convert (sampleBytes.map Int.toNat)).ax, (convert (sampleBytes.map Int.toNat)).ay,
         (convert (sampleBytes.map Int.toNat)).az, (convert (sampleBytes.map Int.toNat)).gx,
         (convert (sampleBytes.map Int.toNat)).gy, (convert (sampleBytes.map Int.toNat)).gz]] :=
  ⟨(failed_read_skips_tick recordingLow (failAt 150 LOW) [tickAt 160 LOW] (tickAt 175 LOW)
      (convert (sampleBytes.map Int.toNat)) rfl (by decide) rfl).2.1,
    (failed_read_skips_tick recordingLow (failAt 150 LOW) [tickAt 160 LOW] (tickAt 175 LOW)
      (convert (sampleBytes.map Int.toNat)) rfl (by decide) rfl).2.2.1,
    ((failed_read_skips_tick recordingLow (failAt 150 LOW) [tickAt 160 LOW] (tickAt 175 LOW)
      (convert (sampleBytes.map Int.toNat)) rfl (by decide) rfl).2.2.2.2.2
        rfl rfl (by decide) (by decide) rfl rfl (Or.inl rfl)).2.1⟩

/-! ## Debounce (C8, C9) -/

theorem sub32_u32_le (t T : Nat) (h : T ≤ t) : sub32 (u32 t) (u32 T) ≤ t - T := by
  unfold sub32 u32 U32
  omega

/-- The acceptance block changes `isRecording` only when the settle time is
exceeded, and never touches the debounce window. -/
theorem acceptLevel_frame (s : State) (i : LoopInput) :
    (acceptLevel s i).state.last_debounce_time = s.last_debounce_time ∧
    (acceptLevel s i).state.last_switch_state = s.last_switch_state ∧
    (sub32 (u32 i.tCheck) s.last_debounce_time ≤ DEBOUNCE_MS →
      (acceptLevel s i).state.isRecording = s.isRecording) := by
  refine ⟨?_, ?_, ?_⟩
  · simp only [acceptLevel]; split_ifs <;> rfl
  · simp only [acceptLevel]; split_ifs <;> rfl
  · intro h
    simp [acceptLevel, Nat.not_lt.mpr h]

/-- The debounce window after one iteration: untouched unless the iteration is
successful, in which case it is the window after `debounceUpdate`. -/
theorem loop_window (s : State) (i : LoopInput) :
    ((loop s i).1.last_debounce_time = s.last_debounce_time ∧
      (loop s i).1.last_switch_state = s.last_switch_state ∧
      (loop s i).1.isRecording = s.isRecording ∧ successful s i = false) ∨
    ((loop s i).1.last_debounce_time = (debounceUpdate s i).last_debounce_time ∧
      (loop s i).1.last_switch_state = (debounceUpdate s i).last_switch_state ∧
      (loop s i).1.isRecording = (acceptLevel (debounceUpdate s i) i).state.isRecording ∧
      successful s i = true) := by
  rcases loop_branches s i with ⟨hs, h⟩ | ⟨hs, hp, h⟩ | ⟨hs, hp, hr, h⟩ | ⟨v, hs, hp, hv, h⟩
  · left; rw [h]; simp [successful, hs]
  · left; rw [h]; simp [successful, hs, hp]
  · left; rw [h]; simp [successful, hs, hr]
  · right; rw [h]
    refine ⟨?_, ?_, ?_, by simp [successful, hs, hp, hv]⟩
    · simp only [acceptLevel, debounceUpdate]; split_ifs <;> rfl
    · simp only [acceptLevel, debounceUpdate]; split_ifs <;> rfl
    · simp only [acceptLevel, debounceUpdate]; split_ifs <;> rfl

/-- Inside the settle window nothing is accepted: if the debounce clock was last
restarted at a time `T` with `t0 ≤ T ≤ prev` and all later readings stay within
`DEBOUNCE_MS` of `t0`, `isRecording` keeps its value and no header is sent. -/
theorem within_settle_run (t0 : Nat) (is : List LoopInput) :
    ∀ (s : State) (prev T : Nat), t0 ≤ T → T ≤ prev → s.last_debounce_time = u32 T →
      withinSettle t0 prev is = true →
      recTrace s is = List.replicate is.length s.isRecording ∧
      ∀ b, Payload.header b ∉ emitted (runLoop s is).2 := by
  induction is with
  | nil => intro s prev T _ _ _ _; simp [recTrace, runLoop, emitted]
  | cons i is ih =>
    intro s prev T h0 hT hldt hwin
    simp only [withinSettle, Bool.and_eq_true, decide_eq_true_eq] at hwin
    obtain ⟨⟨⟨h1, h2⟩, h3⟩, h4⟩ := hwin
    have hstep : (loop s i).1.isRecording = s.isRecording ∧
        ∃ T2, t0 ≤ T2 ∧ T2 ≤ i.tCheck ∧ (loop s i).1.last_debounce_time = u32 T2 := by
      rcases loop_window s i with ⟨hd, _, hr, _⟩ | ⟨hd, _, hr, _⟩
      · exact ⟨hr, T, h0, by omega, by rw [hd, hldt]⟩
      · have hT2 : ∃ T2, t0 ≤ T2 ∧ T2 ≤ i.tCheck ∧
            (debounceUpdate s i).last_debounce_time = u32 T2 := by
          unfold debounceUpdate
          split_ifs
          · exact ⟨i.tDebounce, by omega, h2, rfl⟩
          · exact ⟨T, h0, by omega, hldt⟩
        obtain ⟨T2, ha, hb, hc⟩ := hT2
        have hle : sub32 (u32 i.tCheck) (debounceUpdate s i).last_debounce_time
            ≤ DEBOUNCE_MS := by
          rw [hc]
          have := sub32_u32_le i.tCheck T2 hb
          omega
        refine ⟨?_, T2, ha, hb, by rw [hd, hc]⟩
        rw [hr, (acceptLevel_frame (debounceUpdate s i) i).2.2 hle]
        exact (debounceUpdate_frame s i).1
    obtain ⟨hrec, T2, ha, hb, hc⟩ := hstep
    obtain ⟨ih1, ih2⟩ := ih (loop s i).1 i.tCheck T2 ha hb hc h4
    constructor
    · simp only [recTrace, List.length_cons, List.replicate_succ]
      rw [ih1, hrec]
    · intro b hb2
      simp only [runLoop, emitted_append, List.mem_append] at hb2
      rcases hb2 with hb2 | hb2
      · exact loop_header_changes s i b hb2 hrec
      · exact ih2 b hb2

/-- C8 (debounce rejects bounce).  If a successful iteration samples a level
change, restarting the debounce clock at `t0`, then whatever the pin does on the
following iterations, as long as the clock readings of these iterations (in
chronological order) are at most `DEBOUNCE_MS` after `t0`, `isRecording` keeps
its value after every iteration and no header is sent.  More generally, an
iteration at whose debounce check `millis() - last_debounce_time <= DEBOUNCE_MS`
(with `last_debounce_time` as it is after that iteration's debounce update)
never changes `isRecording` and sends no header. -/
theorem debounce_rejects_bounce :
    (∀ (s : State) (i0 : LoopInput) (rest : List LoopInput),
      successful s i0 = true → i0.pin ≠ s.last_switch_state →
      withinSettle i0.tDebounce i0.tDebounce (i0 :: rest) = true →
      recTrace s (i0 :: rest) = List.replicate (rest.length + 1) s.isRecording ∧
      ∀ b, Payload.header b ∉ emitted (runLoop s (i0 :: rest)).2) ∧
    (∀ (s : State) (i : LoopInput),
      sub32 (u32 i.tCheck) (loop s i).1.last_debounce_time ≤ DEBOUNCE_MS →
      (loop s i).1.isRecording = s.isRecording ∧
      ∀ b, Payload.header b ∉ emitted (loop s i).2) := by
  have single : ∀ (s : State) (i : LoopInput),
      sub32 (u32 i.tCheck) (loop s i).1.last_debounce_time ≤ DEBOUNCE_MS →
      (loop s i).1.isRecording = s.isRecording := by
    intro s i hle
    rcases loop_window s i with ⟨_, _, hr, _⟩ | ⟨hd, _, hr, _⟩
    · exact hr
    · rw [hd] at hle
      rw [hr, (acceptLevel_frame (debounceUpdate s i) i).2.2 hle]
      exact (debounceUpdate_frame s i).1
  constructor
  · intro s i0 rest hok hchg hwin
    simp only [withinSettle, Bool.and_eq_true, decide_eq_true_eq] at hwin
    obtain ⟨⟨⟨_, h2⟩, h3⟩, h4⟩ := hwin
    have hd : (loop s i0).1.last_debounce_time = u32 i0.tDebounce := by
      rcases loop_window s i0 with ⟨_, _, _, hno⟩ | ⟨hd, _, _, _⟩
      · rw [hok] at hno; exact absurd hno (by simp)
      · rw [hd]; simp [debounceUpdate, hchg]
    have hle : sub32 (u32 i0.tCheck) (loop s i0).1.last_debounce_time ≤ DEBOUNCE_MS := by
      rw [hd]
      have := sub32_u32_le i0.tCheck i0.tDebounce h2
      omega
    have hrec := single s i0 hle
    obtain ⟨ih1, ih2⟩ := within_settle_run i0.tDebounce rest (loop s i0).1 i0.tCheck
      i0.tDebounce (Nat.le_refl _) h2 hd h4
    constructor
    · simp only [recTrace, List.replicate_succ]
      rw [ih1, hrec]
    · intro b hb
      simp only [runLoop, emitted_append, List.mem_append] at hb
      rcases hb with hb | hb
      · exact loop_header_changes s i0 b hb hrec
      · exact ih2 b hb
  · intro s i hle
    exact ⟨single s i hle, fun b hb => loop_header_changes s i b hb (single s i hle)⟩

/-- Instance of C8: the level flips on every iteration for 100 ms. -/
theorem debounce_rejects_bounce_witness :
    recTrace recordingLow
        [tickAt 1000 HIGH, tickAt 1025 LOW, tickAt 1050 HIGH, tickAt 1075 LOW,
          tickAt 1100 HIGH] =
      [true, true, true, true, true] :=
  (debounce_rejects_bounce.1 recordingLow (tickAt 1000 HIGH)
    [tickAt 1025 LOW, tickAt 1050 HIGH, tickAt 1075 LOW, tickAt 1100 HIGH]
    (by decide) (by decide) (by decide)).1

theorem recTrace_append (s : State) (xs ys : List LoopInput) :
    recTrace s (xs ++ ys) = recTrace s xs ++ recTrace (runLoop s xs).1 ys := by
  induction xs generalizing s with
  | nil => rfl
  | cons x xs ih => simp [recTrace, runLoop, ih]

theorem changes_replicate_self (b : Bool) (n : Nat) :
    changes b (List.replicate n b) = 0 := by
  induction n with
  | zero => rfl
  | succ n ih => simp [List.replicate_succ, changes, ih]

theorem changes_two_phases (b c : Bool) (m n : Nat) :
    changes b (List.replicate m b ++ List.replicate n c) =
      if c ≠ b ∧ n ≠ 0 then 1 else 0 := by
  induction m with
  | zero =>
    cases n with
    | zero => simp [changes]
    | succ n => simp [List.replicate_succ, changes, changes_replicate_self]
  | succ m ih => simp [List.replicate_succ, changes, ih]

/-- On a successful iteration the sampled level is already taken into account by
`debounceUpdate`: running the iteration from the updated state gives the same
result. -/
theorem loop_debounceUpdate (s : State) (i : LoopInput) (hok : successful s i = true) :
    loop (debounceUpdate s i) i = loop s i := by
  simp only [successful, Bool.and_eq_true, decide_eq_true_eq, Option.isSome_iff_exists] at hok
  obtain ⟨⟨hs, hp⟩, v, hv⟩ := hok
  have hs2 : (debounceUpdate s i).streamOn = true := by
    rw [(debounceUpdate_frame s i).2.2.1]; exact hs
  have hp2 : PERIOD_MS ≤ sub32 (u32 i.now) (debounceUpdate s i).last := by
    rw [(debounceUpdate_frame s i).2.2.2]; exact hp
  rw [loop_ok s i v hs hp hv, loop_ok (debounceUpdate s i) i v hs2 hp2 hv]
  have hidem : debounceUpdate { debounceUpdate s i with last := u32 i.now } i =
      debounceUpdate { s with last := u32 i.now } i := by
    simp only [debounceUpdate]
    split_ifs <;> simp_all
  rw [hidem]

/-- Value of `isRecording` after the acceptance block. -/
theorem acceptLevel_isRecording (s : State) (i : LoopInput) :
    (acceptLevel s i).state.isRecording =
      if DEBOUNCE_MS < sub32 (u32 i.tCheck) s.last_debounce_time then decide (i.pin = LOW)
      else s.isRecording := by
  simp only [acceptLevel]
  split_ifs with h1 h2 <;> first | rfl | exact (not_not.mp h2).symm

/-- One iteration in the steady period, from a state whose debounce window is
`(v, t0)`: the window stays `(v, t0)`; `isRecording` is kept when the iteration
is not successful or is inside the settle time, becomes `v == LOW` when it is
successful beyond the settle time, and stays `v == LOW` once it has that
value. -/
theorem steady_tick (v : Int) (t0 : Nat) (s : State) (i : LoopInput)
    (hpin : i.pin = v)
    (hl : s.last_switch_state = v) (hd : s.last_debounce_time = u32 t0) :
    (loop s i).1.last_switch_state = v ∧
    (loop s i).1.last_debounce_time = u32 t0 ∧
    ((!(successful s i) || decide (sub32 (u32 i.tCheck) (u32 t0) ≤ DEBOUNCE_MS)) = true →
      (loop s i).1.isRecording = s.isRecording) ∧
    (successful s i = true → DEBOUNCE_MS < sub32 (u32 i.tCheck) (u32 t0) →
      (loop s i).1.isRecording = decide (v = LOW)) ∧
    (s.isRecording = decide (v = LOW) →
      (loop s i).1.isRecording = decide (v = LOW)) := by
  have hid : debounceUpdate s i = s := by
    simp [debounceUpdate, hpin, hl]
  rcases loop_window s i with ⟨h1, h2, h3, hno⟩ | ⟨h1, h2, h3, hyes⟩
  · refine ⟨by rw [h2, hl], by rw [h1, hd], fun _ => h3, ?_, fun heq => by rw [h3, heq]⟩
    intro hok
    rw [hok] at hno
    exact absurd hno (by simp)
  · rw [hid] at h1 h2 h3
    refine ⟨by rw [h2, hl], by rw [h1, hd], ?_, ?_, ?_⟩
    · intro hq
      simp only [hyes, Bool.not_true, Bool.false_or, decide_eq_true_eq] at hq
      rw [h3]
      exact (acceptLevel_frame s i).2.2 (by rw [hd]; exact hq)
    · intro _ hgt
      rw [h3, acceptLevel_isRecording, hd, if_pos hgt, hpin]
    · intro heq
      rw [h3, acceptLevel_isRecording, hpin]
      split_ifs
      · rfl
      · exact heq

/-- Steady level, no successful iteration beyond the settle time: `isRecording`
is kept. -/
theorem steady_window (v : Int) (t0 : Nat) (pre : List LoopInput) :
    ∀ (s : State), s.last_switch_state = v → s.last_debounce_time = u32 t0 →
      (∀ i ∈ pre, i.pin = v) → quiet t0 s pre = true →
      recTrace s pre = List.replicate pre.length s.isRecording ∧
      (runLoop s pre).1.last_switch_state = v ∧
      (runLoop s pre).1.last_debounce_time = u32 t0 ∧
      (runLoop s pre).1.isRecording = s.isRecording := by
  induction pre with
  | nil => intro s hl hd _ _; exact ⟨rfl, hl, hd, rfl⟩
  | cons i is ih =>
    intro s hl hd hpin hq
    simp only [quiet, Bool.and_eq_true] at hq
    obtain ⟨h1, h2, h3, _, _⟩ :=
      steady_tick v t0 s i (hpin i (List.mem_cons_self i is)) hl hd
    have hrec := h3 hq.1
    obtain ⟨r1, r2, r3, r4⟩ := ih (loop s i).1 h1 h2
      (fun k hk => hpin k (List.mem_cons_of_mem i hk)) hq.2
    refine ⟨?_, r2, r3, by rw [← hrec]; exact r4⟩
    simp only [recTrace, List.length_cons, List.replicate_succ]
    rw [r1, hrec]

/-- Steady level, once accepted: `isRecording` stays `v == LOW`. -/
theorem steady_accepted (v : Int) (t0 : Nat) (post : List LoopInput) :
    ∀ (s : State), s.last_switch_state = v → s.last_debounce_time = u32 t0 →
      s.isRecording = decide (v = LOW) → (∀ i ∈ post, i.pin = v) →
      recTrace s post = List.replicate post.length (decide (v = LOW)) := by
  induction post with
  | nil => intro s _ _ _ _; rfl
  | cons i is ih =>
    intro s hl hd hacc hpin
    obtain ⟨h1, h2, _, _, h5⟩ :=
      steady_tick v t0 s i (hpin i (List.mem_cons_self i is)) hl hd
    have hrec := h5 hacc
    simp only [recTrace, List.length_cons, List.replicate_succ]
    rw [ih (loop s i).1 h1 h2 hrec (fun k hk => hpin k (List.mem_cons_of_mem i hk)), hrec]

/-- Steady level from a state whose debounce window is `(v, t0)`: `isRecording`
is kept up to the first successful iteration beyond the settle time and is
`v == LOW` from that iteration on. -/
theorem steady_run (v : Int) (t0 : Nat) (s : State) (pre post : List LoopInput)
    (hl : s.last_switch_state = v) (hd : s.last_debounce_time = u32 t0)
    (hpin : ∀ i ∈ pre ++ post, i.pin = v)
    (hpre : quiet t0 s pre = true)
    (hpost : ∀ i post2, post = i :: post2 →
      successful (runLoop s pre).1 i = true ∧
      DEBOUNCE_MS < sub32 (u32 i.tCheck) (u32 t0)) :
    recTrace s (pre ++ post) =
      List.replicate pre.length s.isRecording ++
        List.replicate post.length (decide (v = LOW)) := by
  obtain ⟨r1, r2, r3, r4⟩ := steady_window v t0 pre s hl hd
    (fun i hi => hpin i (List.mem_append_left post hi)) hpre
  rw [recTrace_append, r1]
  congr 1
  cases post with
  | nil => rfl
  | cons i post2 =>
    have hpi : i.pin = v :=
      hpin i (List.mem_append_right pre (List.mem_cons_self i post2))
    obtain ⟨h1, h2, _, h4, _⟩ := steady_tick v t0 (runLoop s pre).1 i hpi r2 r3
    have hrec := h4 (hpost i post2 rfl).1 (hpost i post2 rfl).2
    simp only [recTrace, List.length_cons, List.replicate_succ]
    rw [steady_accepted v t0 post2 (loop (runLoop s pre).1 i).1 h1 h2 hrec
      (fun k hk => hpin k (List.mem_append_right pre (List.mem_cons_of_mem i hk))),
      hrec]

/-- The first iteration of a run may be run from the state its own debounce
update produces. -/
theorem quiet_debounceUpdate (t0 : Nat) (s : State) (i0 : LoopInput)
    (hok : successful s i0 = true) (pre : List LoopInput)
    (hhead : ∀ j, pre.head? = some j → j = i0) (hq : quiet t0 s pre = true) :
    quiet t0 (debounceUpdate s i0) pre = true ∧
    (runLoop (debounceUpdate s i0) pre).1.isRecording = (runLoop s pre).1.isRecording ∧
    ∀ k, successful (runLoop (debounceUpdate s i0) pre).1 k =
      successful (runLoop s pre).1 k := by
  have hfr := debounceUpdate_frame s i0
  cases pre with
  | nil =>
    refine ⟨rfl, hfr.1, ?_⟩
    intro k
    simp only [runLoop, successful, hfr.2.2.1, hfr.2.2.2]
  | cons j js =>
    have hj : j = i0 := hhead j rfl
    subst hj
    have hloop := loop_debounceUpdate s j hok
    refine ⟨?_, ?_, ?_⟩
    · simp only [quiet, hloop, successful, hfr.2.2.1, hfr.2.2.2] at hq ⊢
      exact hq
    · simp only [runLoop, hloop]
    · intro k
      simp only [runLoop, hloop]

/-- C9 (debounce accepts a steady level exactly once).  A successful iteration
`i0` samples a change to level `v`, restarting the debounce clock at `t0`, and
the pin stays at `v` on all later iterations.  Split the run at the first
successful iteration whose debounce check finds `millis() - t0 > DEBOUNCE_MS`:
every iteration of `pre` is unsuccessful or inside the settle time, and `post`
(if not empty) starts with that iteration.  Then `isRecording` keeps its value
after every iteration of `pre` and is `v == LOW` after every iteration of
`post`; so it changes at most once over the run, and exactly once when `post` is
not empty and `v == LOW` differs from the initial `isRecording`. -/
theorem debounce_accepts_steady (s : State) (i0 : LoopInput)
    (rest pre post : List LoopInput) (v : Int)
    (hok : successful s i0 = true)
    (hchg : i0.pin ≠ s.last_switch_state)
    (hpin : ∀ i ∈ i0 :: rest, i.pin = v)
    (hsplit : i0 :: rest = pre ++ post)
    (hpre : quiet i0.tDebounce s pre = true)
    (hpost : ∀ i post2, post = i :: post2 →
      successful (runLoop s pre).1 i = true ∧
      DEBOUNCE_MS < sub32 (u32 i.tCheck) (u32 i0.tDebounce)) :
    recTrace s (i0 :: rest) =
      List.replicate pre.length s.isRecording ++
        List.replicate post.length (decide (v = LOW)) ∧
    changes s.isRecording (recTrace s (i0 :: rest)) ≤ 1 ∧
    (post ≠ [] → decide (v = LOW) ≠ s.isRecording →
      changes s.isRecording (recTrace s (i0 :: rest)) = 1) := by
  have hloop := loop_debounceUpdate s i0 hok
  have hfr := debounceUpdate_frame s i0
  have htrace : recTrace (debounceUpdate s i0) (i0 :: rest) = recTrace s (i0 :: rest) := by
    simp only [recTrace, hloop]
  have hhead : ∀ j, pre.head? = some j → j = i0 := by
    intro j hj
    cases pre with
    | nil => simp at hj
    | cons k ks =>
      simp only [List.head?_cons, Option.some.injEq] at hj
      simp only [List.cons_append, List.cons.injEq] at hsplit
      rw [← hj, ← hsplit.1]
  obtain ⟨q1, _, q3⟩ := quiet_debounceUpdate i0.tDebounce s i0 hok pre hhead hpre
  have hl : (debounceUpdate s i0).last_switch_state = v := by
    unfold debounceUpdate
    rw [if_pos hchg]
    exact hpin i0 (List.mem_cons_self i0 rest)
  have hd : (debounceUpdate s i0).last_debounce_time = u32 i0.tDebounce := by
    simp [debounceUpdate, hchg]
  have hmain : recTrace s (i0 :: rest) =
      List.replicate pre.length s.isRecording ++
        List.replicate post.length (decide (v = LOW)) := by
    rw [← htrace, hsplit, ← hfr.1]
    refine steady_run v i0.tDebounce (debounceUpdate s i0) pre post hl hd
      (by rw [← hsplit]; exact hpin) q1 ?_
    intro i post2 hp
    rw [q3 i]
    exact hpost i post2 hp
  refine ⟨hmain, ?_, ?_⟩
  · rw [hmain, changes_two_phases]
    split_ifs <;> omega
  · intro hne hdiff
    rw [hmain, changes_two_phases, if_pos]
    exact ⟨hdiff, by simpa using hne⟩

/-- Instance of C9: LOW sampled at 1000 and held, with one failed read; accepted
at 1125. -/
theorem debounce_accepts_steady_witness :
    recTrace initState
        [tickAt 1000 LOW, tickAt 1050 LOW, failAt 1075 LOW, tickAt 1100 LOW,
          tickAt 1125 LOW, tickAt 1150 LOW] =
      [false, false, false, false, true, true] ∧
    changes initState.isRecording
        (recTrace initState
          [tickAt 1000 LOW, tickAt 1050 LOW, failAt 1075 LOW, tickAt 1100 LOW,
            tickAt 1125 LOW, tickAt 1150 LOW]) = 1 :=
  ⟨(debounce_accepts_steady initState (tickAt 1000 LOW)
      [tickAt 1050 LOW, failAt 1075 LOW, tickAt 1100 LOW, tickAt 1125 LOW, tickAt 1150 LOW]
      [tickAt 1000 LOW, tickAt 1050 LOW, failAt 1075 LOW, tickAt 1100 LOW]
      [tickAt 1125 LOW, tickAt 1150 LOW] LOW
      (by decide) (by decide) (by decide) rfl (by decide)
      (by intro i post2 h; cases h; decide)).1,
    (debounce_accepts_steady initState (tickAt 1000 LOW)
      [tickAt 1050 LOW, failAt 1075 LOW, tickAt 1100 LOW, tickAt 1125 LOW, tickAt 1150 LOW]
      [tickAt 1000 LOW, tickAt 1050 LOW, failAt 1075 LOW, tickAt 1100 LOW]
      [tickAt 1125 LOW, tickAt 1150 LOW] LOW
      (by decide) (by decide) (by decide) rfl (by decide)
      (by intro i post2 h; cases h; decide)).2.2 (by simp) (by decide)⟩

/-! ## Bytes and words of the register block -/

/-- A successful bus read stores exactly `len` bytes. -/
theorem i2cReadBytes_bytes (bus : BusRead) (len : Nat) (raw : List Nat)
    (h : i2cReadBytes bus len = some raw) :
    raw.length = len ∧ ∀ k, raw.getD k 0 < 256 := by
  unfold i2cReadBytes at h
  split_ifs at h
  simp only [Option.some.injEq] at h
  subst h
  refine ⟨by simp, ?_⟩
  intro k
  by_cases hk : k < len
  · rw [List.getD_eq_getElem _ _ (by simpa using hk)]
    simp only [List.getElem_map, List.getElem_range]
    omega
  · rw [List.getD_eq_default _ _ (by simpa using hk)]
    decide

/-- On bytes, the C expression `(int16_t)((hi << 8) | lo)` is the big-endian
two's-complement word. -/
theorem toInt16_bytes (hi lo : Nat) (hhi : hi < 256) (hlo : lo < 256) :
    toInt16 ((hi <<< 8) ||| lo) = specWord hi lo := by
  have hor : (hi <<< 8) ||| lo = hi * 256 + lo := by
    rw [Nat.shiftLeft_eq, Nat.mul_comm hi (2 ^ 8)]
    exact (Nat.mul_add_lt_is_or (by simpa using hlo) hi).symm.trans (by omega)
  rw [hor]
  unfold toInt16 specWord
  split_ifs <;> omega

/-! ## binary32 rounding -/

/-- Rounding to an integer moves by at most one half. -/
theorem roundHalfEven_near (x : ℚ) :
    (roundHalfEven x : ℚ) - x ≤ 1 / 2 ∧ x - (roundHalfEven x : ℚ) ≤ 1 / 2 := by
  have h1 : (⌊x⌋ : ℚ) ≤ x := Int.floor_le x
  have h2 : x < (⌊x⌋ : ℚ) + 1 := Int.lt_floor_add_one x
  unfold roundHalfEven
  split_ifs <;> push_cast <;> constructor <;> linarith

/-- An integer above `x` is above its rounding. -/
theorem roundHalfEven_le (x : ℚ) (n : ℤ) (h : x ≤ n) : roundHalfEven x ≤ n := by
  have hn := roundHalfEven_near x
  have : (roundHalfEven x : ℚ) < (n : ℚ) + 1 := by linarith
  have : roundHalfEven x < n + 1 := by exact_mod_cast this
  omega

/-- An integer below `x` is below its rounding. -/
theorem le_roundHalfEven (x : ℚ) (n : ℤ) (h : (n : ℚ) ≤ x) : n ≤ roundHalfEven x := by
  have hn := roundHalfEven_near x
  have : (n : ℚ) - 1 < (roundHalfEven x : ℚ) := by linarith
  have : n - 1 < roundHalfEven x := by exact_mod_cast this
  omega

/-- The integer within less than one half of `x` is its rounding. -/
theorem roundHalfEven_eq (x : ℚ) (n : ℤ) (h1 : (n : ℚ) - 1 / 2 < x)
    (h2 : x < (n : ℚ) + 1 / 2) : roundHalfEven x = n := by
  have hn := roundHalfEven_near x
  have ha : (roundHalfEven x : ℚ) < (n : ℚ) + 1 := by linarith
  have hb : (n : ℚ) - 1 < (roundHalfEven x : ℚ) := by linarith
  have ha2 : roundHalfEven x < n + 1 := by exact_mod_cast ha
  have hb2 : n - 1 < roundHalfEven x := by exact_mod_cast hb
  omega

/-- Exponent of a value below 256 in absolute value. -/
theorem f32Exponent_le (q : ℚ) (h : |q| < 256) : f32Exponent q ≤ 7 := by
  unfold f32Exponent
  apply max_le _ (by norm_num)
  rcases eq_or_lt_of_le (abs_nonneg q) with h0 | h0
  · rw [← h0, Int.log_zero_right]; norm_num
  · have : Int.log 2 |q| < 8 := by
      rw [← Int.lt_zpow_iff_log_lt (by norm_num) h0]
      norm_num
      exact h
    omega

/-- Exponent of a value in the binade `[2^e, 2^(e+1))`. -/
theorem f32Exponent_eq (q : ℚ) (e : ℤ) (he : -126 ≤ e) (h1 : (2 : ℚ) ^ e ≤ |q|)
    (h2 : |q| < (2 : ℚ) ^ (e + 1)) : f32Exponent q = e := by
  have h0 : 0 < |q| := lt_of_lt_of_le (zpow_pos (by norm_num) e) h1
  have ha : e ≤ Int.log 2 |q| := by
    rw [← Int.zpow_le_iff_le_log (by norm_num) h0]
    exact_mod_cast h1
  have hb : Int.log 2 |q| < e + 1 := by
    rw [← Int.lt_zpow_iff_log_lt (by norm_num) h0]
    exact_mod_cast h2
  unfold f32Exponent
  rw [max_eq_left (by omega)]
  omega

/-- A power of two not below the unit in the last place of `q` is an integer
multiple of that unit. -/
theorem grid_multiple (q : ℚ) (k : ℤ) (hk : f32Exponent q - 23 ≤ k) :
    ∃ j : ℕ, (2 : ℚ) ^ k = ((2 ^ j : ℤ) : ℚ) * 2 ^ (f32Exponent q - 23) := by
  refine ⟨(k - (f32Exponent q - 23)).toNat, ?_⟩
  have hj : k = ((k - (f32Exponent q - 23)).toNat : ℤ) + (f32Exponent q - 23) := by omega
  conv_lhs => rw [hj]
  rw [zpow_add₀ (by norm_num), zpow_natCast]
  push_cast
  ring

/-- Rounding does not cross a multiple `m * 2^k` of the unit in the last place,
from below. -/
theorem roundF32_le_grid (q : ℚ) (m k : ℤ) (hk : f32Exponent q - 23 ≤ k)
    (h : q ≤ (m : ℚ) * 2 ^ k) : roundF32 q ≤ (m : ℚ) * 2 ^ k := by
  obtain ⟨j, hj⟩ := grid_multiple q k hk
  have hu : (0 : ℚ) < 2 ^ (f32Exponent q - 23) := zpow_pos (by norm_num) _
  have hx : q / 2 ^ (f32Exponent q - 23) ≤ ((m * 2 ^ j : ℤ) : ℚ) := by
    rw [div_le_iff₀ hu]
    rw [hj] at h
    push_cast at h ⊢
    linarith
  have hr := roundHalfEven_le _ _ hx
  have hr2 : (roundHalfEven (q / 2 ^ (f32Exponent q - 23)) : ℚ) ≤ ((m * 2 ^ j : ℤ) : ℚ) := by
    exact_mod_cast hr
  unfold roundF32
  calc (roundHalfEven (q / 2 ^ (f32Exponent q - 23)) : ℚ) * 2 ^ (f32Exponent q - 23)
      ≤ ((m * 2 ^ j : ℤ) : ℚ) * 2 ^ (f32Exponent q - 23) :=
        mul_le_mul_of_nonneg_right hr2 hu.le
    _ = (m : ℚ) * 2 ^ k := by rw [hj]; push_cast; ring

/-- Rounding does not cross a multiple `m * 2^k` of the unit in the last place,
from above. -/
theorem grid_le_roundF32 (q : ℚ) (m k : ℤ) (hk : f32Exponent q - 23 ≤ k)
    (h : (m : ℚ) * 2 ^ k ≤ q) : (m : ℚ) * 2 ^ k ≤ roundF32 q := by
  obtain ⟨j, hj⟩ := grid_multiple q k hk
  have hu : (0 : ℚ) < 2 ^ (f32Exponent q - 23) := zpow_pos (by norm_num) _
  have hx : ((m * 2 ^ j : ℤ) : ℚ) ≤ q / 2 ^ (f32Exponent q - 23) := by
    rw [le_div_iff₀ hu]
    rw [hj] at h
    push_cast at h ⊢
    linarith
  have hr := le_roundHalfEven _ _ hx
  have hr2 : ((m * 2 ^ j : ℤ) : ℚ) ≤ (roundHalfEven (q / 2 ^ (f32Exponent q - 23)) : ℚ) := by
    exact_mod_cast hr
  unfold roundF32
  calc (m : ℚ) * 2 ^ k = ((m * 2 ^ j : ℤ) : ℚ) * 2 ^ (f32Exponent q - 23) := by
        rw [hj]; push_cast; ring
    _ ≤ (roundHalfEven (q / 2 ^ (f32Exponent q - 23)) : ℚ) * 2 ^ (f32Exponent q - 23) :=
        mul_le_mul_of_nonneg_right hr2 hu.le

/-- A multiple of the unit in the last place is representable: rounding keeps
it. -/
theorem roundF32_grid (q : ℚ) (m k : ℤ) (hk : f32Exponent q - 23 ≤ k)
    (h : q = (m : ℚ) * 2 ^ k) : roundF32 q = q :=
  le_antisymm (by rw [h]; exact roundF32_le_grid _ m k (by rw [← h]; exact hk) le_rfl)
    (by rw [h]; exact grid_le_roundF32 _ m k (by rw [← h]; exact hk) le_rfl)

/-- Rounding moves by at most half a unit in the last place. -/
theorem roundF32_near (q : ℚ) :
    |roundF32 q - q| ≤ 2 ^ (f32Exponent q - 23) / 2 := by
  have hu : (0 : ℚ) < 2 ^ (f32Exponent q - 23) := zpow_pos (by norm_num) _
  obtain ⟨h1, h2⟩ := roundHalfEven_near (q / 2 ^ (f32Exponent q - 23))
  have hq : q = q / 2 ^ (f32Exponent q - 23) * 2 ^ (f32Exponent q - 23) := by
    field_simp
  unfold roundF32
  rw [abs_le]
  constructor
  · nlinarith
  · nlinarith

/-- The value of `roundF32 q`, from the binade of `q` and the nearest multiple of
the unit in the last place. -/
theorem roundF32_eq (q : ℚ) (e n : ℤ) (he : -126 ≤ e) (h1 : (2 : ℚ) ^ e ≤ |q|)
    (h2 : |q| < (2 : ℚ) ^ (e + 1))
    (h3 : (n : ℚ) - 1 / 2 < q / 2 ^ (e - 23)) (h4 : q / 2 ^ (e - 23) < (n : ℚ) + 1 / 2) :
    roundF32 q = (n : ℚ) * 2 ^ (e - 23) := by
  unfold roundF32
  rw [f32Exponent_eq q e he h1 h2, roundHalfEven_eq _ n h3 h4]

/-! ## The two quotients of `icmRead` -/

theorem toInt16_range (n : Nat) : -32768 ≤ toInt16 n ∧ toInt16 n ≤ 32767 := by
  unfold toInt16
  split_ifs <;> omega

/-- Dividing a 16-bit word by `16384.0f` is exact. -/
theorem divF32_acc (z : Int) (hlo : -32768 ≤ z) (hhi : z ≤ 32767) :
    divF32 z ACC_LSB_PER_G = (z : ℚ) / 16384 := by
  have h1 : (-32768 : ℚ) ≤ z := by exact_mod_cast hlo
  have h2 : (z : ℚ) ≤ 32767 := by exact_mod_cast hhi
  have habs : |(z : ℚ) / 16384| < 256 := by
    rw [abs_lt]
    constructor <;> linarith
  have he := f32Exponent_le _ habs
  unfold divF32 ACC_LSB_PER_G
  exact roundF32_grid _ z (-14) (by omega) (by norm_num; ring)

/-- Dividing a 16-bit word by `131.0f`: the result is within `2^-17` of the
exact quotient and between the roundings of the two extreme quotients. -/
theorem divF32_gyr (z : Int) (hlo : -32768 ≤ z) (hhi : z ≤ 32767) :
    divF32 z GYR_LSB_PER_DPS = roundF32 ((z : ℚ) / 131) ∧
    |divF32 z GYR_LSB_PER_DPS - (z : ℚ) / 131| ≤ 1 / 131072 ∧
    -16393005 / 65536 ≤ divF32 z GYR_LSB_PER_DPS ∧
    divF32 z GYR_LSB_PER_DPS ≤ 16392505 / 65536 := by
  have h1 : (-32768 : ℚ) ≤ z := by exact_mod_cast hlo
  have h2 : (z : ℚ) ≤ 32767 := by exact_mod_cast hhi
  have habs : |(z : ℚ) / 131| < 256 := by
    rw [abs_lt]
    constructor <;> linarith
  have he := f32Exponent_le _ habs
  have hdef : divF32 z GYR_LSB_PER_DPS = roundF32 ((z : ℚ) / 131) := rfl
  refine ⟨hdef, ?_, ?_, ?_⟩
  · rw [hdef]
    have hn := roundF32_near ((z : ℚ) / 131)
    have hp : (2 : ℚ) ^ (f32Exponent ((z : ℚ) / 131) - 23) ≤ 2 ^ (-16 : ℤ) :=
      zpow_le_zpow_right₀ (by norm_num) (by omega)
    have h16 : (2 : ℚ) ^ (-16 : ℤ) = 1 / 65536 := by norm_num
    rw [h16] at hp
    linarith
  · rw [hdef]
    have := grid_le_roundF32 ((z : ℚ) / 131) (-16393005) (-16) (by omega)
      (by norm_num; linarith)
    norm_num at this ⊢
    linarith
  · rw [hdef]
    have := roundF32_le_grid ((z : ℚ) / 131) 16392505 (-16) (by omega)
      (by norm_num; linarith)
    norm_num at this ⊢
    linarith

/-- The quotient of the word 0 is 0. -/
theorem divF32_zero (d : ℚ) : divF32 0 d = 0 := by
  simp [divF32, roundF32, roundHalfEven]

/-- The word 32767 divided by `131.0f`. -/
theorem divF32_gyr_max : divF32 32767 GYR_LSB_PER_DPS = 16392505 / 65536 := by
  have habs : |((32767 : ℤ) : ℚ) / 131| = 32767 / 131 := by
    rw [abs_of_pos (by norm_num)]; norm_num
  have h := roundF32_eq (((32767 : ℤ) : ℚ) / 131) 7 16392505 (by norm_num)
    (by rw [habs]; norm_num) (by rw [habs]; norm_num) (by norm_num) (by norm_num)
  unfold divF32 GYR_LSB_PER_DPS
  rw [h]
  norm_num

/-- The word -32768 divided by `131.0f`. -/
theorem divF32_gyr_min : divF32 (-32768) GYR_LSB_PER_DPS = -16393005 / 65536 := by
  have habs : |((-32768 : ℤ) : ℚ) / 131| = 32768 / 131 := by
    rw [abs_of_neg (by norm_num)]; norm_num
  have h := roundF32_eq (((-32768 : ℤ) : ℚ) / 131) 7 (-16393005) (by norm_num)
    (by rw [habs]; norm_num) (by rw [habs]; norm_num) (by norm_num) (by norm_num)
  unfold divF32 GYR_LSB_PER_DPS
  rw [h]
  norm_num

/-! ## Sensor decoding (C10) -/

/-- The lambda `s16` on a block of bytes. -/
theorem s16_bytes (raw : List Nat) (hraw : ∀ k, raw.getD k 0 < 256) (i : Nat) :
    s16 raw i = specWord (raw.getD i 0) (raw.getD (i + 1) 0) :=
  toInt16_bytes _ _ (hraw i) (hraw (i + 1))

theorem s16_range (raw : List Nat) (i : Nat) : -32768 ≤ s16 raw i ∧ s16 raw i ≤ 32767 :=
  toInt16_range _

/-- The six outputs for a block of bytes: the accelerations are exact quotients,
the angular rates are rounded quotients. -/
theorem convert_bytes (raw : List Nat) (hraw : ∀ k, raw.getD k 0 < 256) :
    convert raw =
      { ax := (specWord (raw.getD 0 0) (raw.getD 1 0) : ℚ) / 16384
        ay := (specWord (raw.getD 2 0) (raw.getD 3 0) : ℚ) / 16384
        az := (specWord (raw.getD 4 0) (raw.getD 5 0) : ℚ) / 16384
        gx := roundF32 ((specWord (raw.getD 8 0) (raw.getD 9 0) : ℚ) / 131)
        gy := roundF32 ((specWord (raw.getD 10 0) (raw.getD 11 0) : ℚ) / 131)
        gz := roundF32 ((specWord (raw.getD 12 0) (raw.getD 13 0) : ℚ) / 131) } := by
  have ha : ∀ i, divF32 (s16 raw i) ACC_LSB_PER_G =
      (specWord (raw.getD i 0) (raw.getD (i + 1) 0) : ℚ) / 16384 := by
    intro i
    rw [divF32_acc _ (s16_range raw i).1 (s16_range raw i).2, s16_bytes raw hraw]
  have hg : ∀ i, divF32 (s16 raw i) GYR_LSB_PER_DPS =
      roundF32 ((specWord (raw.getD i 0) (raw.getD (i + 1) 0) : ℚ) / 131) := by
    intro i
    rw [(divF32_gyr _ (s16_range raw i).1 (s16_range raw i).2).1, s16_bytes raw hraw]
  simp only [convert, ha, hg]

/-- C10, counterexample to the claim as stated.  For the block `sampleBytes`,
whose bytes 12 and 13 are `0x7F, 0xFF` (the word 32767), `icmRead` returns
`gz = 16392505/65536`, the binary32 value nearest to `32767/131`, and not
`32767/131`. -/
theorem gyro_quotient_is_rounded :
    icmRead (busOk sampleBytes) = some (convert (sampleBytes.map Int.toNat)) ∧
    (sampleBytes.map Int.toNat).getD 12 0 = 0x7F ∧
    (sampleBytes.map Int.toNat).getD 13 0 = 0xFF ∧
    (specWord 0x7F 0xFF : ℚ) / 131 = 32767 / 131 ∧
    (convert (sampleBytes.map Int.toNat)).gz = 16392505 / 65536 ∧
    (convert (sampleBytes.map Int.toNat)).gz ≠ (specWord 0x7F 0xFF : ℚ) / 131 := by
  have hw : s16 (sampleBytes.map Int.toNat) 12 = 32767 := by decide
  have hgz : (convert (sampleBytes.map Int.toNat)).gz = 16392505 / 65536 := by
    show divF32 (s16 (sampleBytes.map Int.toNat) 12) GYR_LSB_PER_DPS = 16392505 / 65536
    rw [hw]
    exact divF32_gyr_max
  have hsw : (specWord 0x7F 0xFF : ℚ) / 131 = 32767 / 131 := by
    norm_num [specWord]
  refine ⟨rfl, by decide, by decide, hsw, hgz, ?_⟩
  rw [hgz, hsw]
  norm_num

/-- C10, as amended (scale conversion and register layout).  For the 14-byte
block `raw` of a successful burst read, `icmRead` succeeds with `ax, ay, az` the
big-endian signed words at bytes 0-1, 2-3, 4-5 divided by 16384, exactly, and
`gx, gy, gz` the binary32 values nearest to the words at bytes 8-9, 10-11, 12-13
divided by 131, each within `2^-17` of that quotient; two blocks that differ
only in bytes 6 and 7 give the same sample; the pair `0x40,0x00` gives exactly
1 g on each acceleration axis and the pair `0x00,0x00` gives exactly 0 on every
axis. -/
theorem icmRead_scale_layout :
    (∀ (bus : BusRead) (raw : List Nat), i2cReadBytes bus 14 = some raw →
      icmRead bus = some
        { ax := (specWord (raw.getD 0 0) (raw.getD 1 0) : ℚ) / 16384
          ay := (specWord (raw.getD 2 0) (raw.getD 3 0) : ℚ) / 16384
          az := (specWord (raw.getD 4 0) (raw.getD 5 0) : ℚ) / 16384
          gx := roundF32 ((specWord (raw.getD 8 0) (raw.getD 9 0) : ℚ) / 131)
          gy := roundF32 ((specWord (raw.getD 10 0) (raw.getD 11 0) : ℚ) / 131)
          gz := roundF32 ((specWord (raw.getD 12 0) (raw.getD 13 0) : ℚ) / 131) }) ∧
    (∀ (bus : BusRead) (raw : List Nat) (v : Sample),
      i2cReadBytes bus 14 = some raw → icmRead bus = some v →
      |v.gx - (specWord (raw.getD 8 0) (raw.getD 9 0) : ℚ) / 131| ≤ 1 / 131072 ∧
      |v.gy - (specWord (raw.getD 10 0) (raw.getD 11 0) : ℚ) / 131| ≤ 1 / 131072 ∧
      |v.gz - (specWord (raw.getD 12 0) (raw.getD 13 0) : ℚ) / 131| ≤ 1 / 131072) ∧
    (∀ (bus bus2 : BusRead) (raw raw2 : List Nat),
      i2cReadBytes bus 14 = some raw → i2cReadBytes bus2 14 = some raw2 →
      (∀ k, k ≠ 6 → k ≠ 7 → raw.getD k 0 = raw2.getD k 0) →
      icmRead bus = icmRead bus2) ∧
    (∀ (bus : BusRead) (raw : List Nat) (v : Sample),
      i2cReadBytes bus 14 = some raw → icmRead bus = some v →
      (raw.getD 0 0 = 0x40 → raw.getD 1 0 = 0x00 → v.ax = 1) ∧
      (raw.getD 2 0 = 0x40 → raw.getD 3 0 = 0x00 → v.ay = 1) ∧
      (raw.getD 4 0 = 0x40 → raw.getD 5 0 = 0x00 → v.az = 1) ∧
      (raw.getD 0 0 = 0x00 → raw.getD 1 0 = 0x00 → v.ax = 0) ∧
      (raw.getD 2 0 = 0x00 → raw.getD 3 0 = 0x00 → v.ay = 0) ∧
      (raw.getD 4 0 = 0x00 → raw.getD 5 0 = 0x00 → v.az = 0) ∧
      (raw.getD 8 0 = 0x00 → raw.getD 9 0 = 0x00 → v.gx = 0) ∧
      (raw.getD 10 0 = 0x00 → raw.getD 11 0 = 0x00 → v.gy = 0) ∧
      (raw.getD 12 0 = 0x00 → raw.getD 13 0 = 0x00 → v.gz = 0)) := by
  have layout : ∀ (bus : BusRead) (raw : List Nat), i2cReadBytes bus 14 = some raw →
      icmRead bus = some
        { ax := (specWord (raw.getD 0 0) (raw.getD 1 0) : ℚ) / 16384
          ay := (specWord (raw.getD 2 0) (raw.getD 3 0) : ℚ) / 16384
          az := (specWord (raw.getD 4 0) (raw.getD 5 0) : ℚ) / 16384
          gx := roundF32 ((specWord (raw.getD 8 0) (raw.getD 9 0) : ℚ) / 131)
          gy := roundF32 ((specWord (raw.getD 10 0) (raw.getD 11 0) : ℚ) / 131)
          gz := roundF32 ((specWord (raw.getD 12 0) (raw.getD 13 0) : ℚ) / 131) } := by
    intro bus raw h
    have hb := (i2cReadBytes_bytes bus 14 raw h).2
    simp only [icmRead, h, convert_bytes raw hb]
  have near : ∀ (raw : List Nat) (i : Nat), (∀ k, raw.getD k 0 < 256) →
      |roundF32 ((specWord (raw.getD i 0) (raw.getD (i + 1) 0) : ℚ) / 131) -
        (specWord (raw.getD i 0) (raw.getD (i + 1) 0) : ℚ) / 131| ≤ 1 / 131072 := by
    intro raw i hb
    rw [← s16_bytes raw hb i]
    have h := divF32_gyr (s16 raw i) (s16_range raw i).1 (s16_range raw i).2
    rw [← h.1]
    exact h.2.1
  refine ⟨layout, ?_, ?_, ?_⟩
  · intro bus raw v h hv
    have hb := (i2cReadBytes_bytes bus 14 raw h).2
    rw [layout bus raw h] at hv
    simp only [Option.some.injEq] at hv
    subst hv
    exact ⟨near raw 8 hb, near raw 10 hb, near raw 12 hb⟩
  · intro bus bus2 raw raw2 h h2 hagree
    rw [layout bus raw h, layout bus2 raw2 h2]
    rw [hagree 0 (by decide) (by decide), hagree 1 (by decide) (by decide),
      hagree 2 (by decide) (by decide), hagree 3 (by decide) (by decide),
      hagree 4 (by decide) (by decide), hagree 5 (by decide) (by decide),
      hagree 8 (by decide) (by decide), hagree 9 (by decide) (by decide),
      hagree 10 (by decide) (by decide), hagree 11 (by decide) (by decide),
      hagree 12 (by decide) (by decide), hagree 13 (by decide) (by decide)]
  · intro bus raw v h hv
    rw [layout bus raw h] at hv
    simp only [Option.some.injEq] at hv
    subst hv
    have hz : roundF32 (((specWord 0 0 : ℤ) : ℚ) / 131) = 0 := by
      simp [specWord, roundF32, roundHalfEven]
    refine ⟨?_, ?_, ?_, ?_, ?_, ?_, ?_, ?_, ?_⟩ <;>
    · intro h1 h2
      simp only [h1, h2]
      first
        | exact hz
        | norm_num [specWord]

/-- Instance of C10 as amended: the block `sampleBytes`. -/
theorem icmRead_scale_layout_witness :
    icmRead (busOk sampleBytes) = some
      { ax := (specWord 0x40 0x00 : ℚ) / 16384
        ay := (specWord 0xFF 0xFF : ℚ) / 16384
        az := (specWord 0x80 0x00 : ℚ) / 16384
        gx := roundF32 ((specWord 0x00 0x83 : ℚ) / 131)
        gy := roundF32 ((specWord 0xFF 0x7D : ℚ) / 131)
        gz := roundF32 ((specWord 0x7F 0xFF : ℚ) / 131) } ∧
    (convert (sampleBytes.map Int.toNat)).ax = 1 ∧
    |(convert (sampleBytes.map Int.toNat)).gz - (specWord 0x7F 0xFF : ℚ) / 131|
      ≤ 1 / 131072 :=
  ⟨icmRead_scale_layout.1 (busOk sampleBytes) (sampleBytes.map Int.toNat) rfl,
    (icmRead_scale_layout.2.2.2 (busOk sampleBytes) (sampleBytes.map Int.toNat)
      (convert (sampleBytes.map Int.toNat)) rfl rfl).1 rfl rfl,
    (icmRead_scale_layout.2.1 (busOk sampleBytes) (sampleBytes.map Int.toNat)
      (convert (sampleBytes.map Int.toNat)) rfl rfl).2.2⟩

/-! ## Scenario A (C11) -/

/-- An iteration never changes `imuChar` or `streamOn`. -/
theorem loop_frame (s : State) (i : LoopInput) :
    (loop s i).1.imuChar = s.imuChar ∧ (loop s i).1.streamOn = s.streamOn := by
  rcases loop_branches s i with ⟨_, h⟩ | ⟨_, _, h⟩ | ⟨_, _, _, h⟩ | ⟨v, _, _, _, h⟩
  · rw [h]; exact ⟨rfl, rfl⟩
  · rw [h]; exact ⟨rfl, rfl⟩
  · rw [h]; exact ⟨rfl, rfl⟩
  · rw [h]
    simp only [acceptLevel, debounceUpdate]
    constructor <;> split_ifs <;> rfl

/-- An iteration that changes `isRecording` is eligible, has sampled the pin, and
sets `isRecording` to `pin == LOW`. -/
theorem loop_change (s : State) (i : LoopInput)
    (hch : (loop s i).1.isRecording ≠ s.isRecording) :
    eligible s i = true ∧ (loop s i).1.last_switch_state = i.pin ∧
    (loop s i).1.isRecording = decide (i.pin = LOW) := by
  rcases loop_branches s i with ⟨_, h⟩ | ⟨_, _, h⟩ | ⟨_, _, _, h⟩ | ⟨v, hs, hp, _, h⟩
  · rw [h] at hch; exact absurd rfl hch
  · rw [h] at hch; exact absurd rfl hch
  · rw [h] at hch; exact absurd rfl hch
  · refine ⟨by simp [eligible, hs, hp], ?_, ?_⟩
    · rw [h]
      simp only [acceptLevel, debounceUpdate]
      split_ifs <;> simp_all
    · rw [h] at hch ⊢
      simp only [acceptLevel, debounceUpdate] at hch ⊢
      split_ifs at hch ⊢ <;> simp_all

/-- While recording with the switch settled at LOW, an iteration that samples LOW
keeps recording, and sends its sample if it is eligible and nothing otherwise. -/
theorem recording_low_tick (s : State) (i : LoopInput)
    (hrec : s.isRecording = true) (hl : s.last_switch_state = LOW)
    (himu : s.imuChar = true) (hpin : i.pin = LOW) :
    ((loop s i).1.isRecording = true ∧ (loop s i).1.last_switch_state = LOW ∧
      (loop s i).1.imuChar = true) ∧
    (∀ v, eligible s i = true → icmRead i.bus = some v →
      emitted (loop s i).2 = [Payload.data [v.ax, v.ay, v.az, v.gx, v.gy, v.gz]]) ∧
    (eligible s i = false → emitted (loop s i).2 = []) := by
  rcases loop_branches s i with ⟨hs, h⟩ | ⟨hs, hp, h⟩ | ⟨hs, hp, hr, h⟩ | ⟨v, hs, hp, hv, h⟩
  · rw [h]
    refine ⟨⟨hrec, hl, himu⟩, ?_, fun _ => rfl⟩
    intro v he
    simp [eligible, hs] at he
  · rw [h]
    refine ⟨⟨hrec, hl, himu⟩, ?_, fun _ => rfl⟩
    intro v he
    simp [eligible, hs, Nat.not_le.mpr hp] at he
  · rw [h]
    refine ⟨⟨hrec, hl, himu⟩, ?_, fun _ => rfl⟩
    intro v _ hv
    rw [hr] at hv
    exact absurd hv (by simp)
  · rw [h]
    refine ⟨?_, ?_, ?_⟩
    · simp only [acceptLevel, debounceUpdate]
      split_ifs <;> simp_all
    · intro v2 _ hv2
      rw [hv] at hv2
      simp only [Option.some.injEq] at hv2
      subst hv2
      simp only [acceptLevel, debounceUpdate, sendData]
      split_ifs <;> simp_all [emitted]
    · intro he
      simp [eligible, hs, hp] at he

/-- Recording with the switch settled at LOW is kept by iterations sampling LOW. -/
theorem recording_low_run (pre : List LoopInput) :
    ∀ (s : State), s.isRecording = true → s.last_switch_state = LOW →
      s.imuChar = true → (∀ j ∈ pre, j.pin = LOW) →
      (runLoop s pre).1.isRecording = true ∧
      (runLoop s pre).1.last_switch_state = LOW ∧
      (runLoop s pre).1.imuChar = true := by
  induction pre with
  | nil => intro s h1 h2 h3 _; exact ⟨h1, h2, h3⟩
  | cons i is ih =>
    intro s h1 h2 h3 hpin
    obtain ⟨⟨r1, r2, r3⟩, _, _⟩ :=
      recording_low_tick s i h1 h2 h3 (hpin i (List.mem_cons_self i is))
    exact ih (loop s i).1 r1 r2 r3 (fun j hj => hpin j (List.mem_cons_of_mem i hj))

/-- C11 (end-to-end scenario A).  With the gate on, `imuChar` present and every
sensor read successful: if the iteration `iT` changes `isRecording` from Idle to
Recording and the pin reads LOW on the iterations that follow, then `iT` sends
exactly the header byte `0x01`, and every following iteration that is eligible
sends exactly one data payload (its own sample, 24 bytes) and no header, while
the others (period not elapsed) send nothing. -/
theorem scenario_A (s : State) (iT : LoopInput) (rest : List LoopInput)
    (himu : s.imuChar = true) (_hgate : s.streamOn = true)
    (hidle : s.isRecording = false) (hT : (loop s iT).1.isRecording = true)
    (hrest : ∀ j ∈ rest, j.pin = LOW ∧ (icmRead j.bus).isSome = true) :
    emitted (loop s iT).2 = [Payload.header 0x01] ∧
    ∀ (pre : List LoopInput) (j : LoopInput) (post : List LoopInput),
      rest = pre ++ j :: post →
      (eligible (runLoop (loop s iT).1 pre).1 j = true →
        ∃ v, icmRead j.bus = some v ∧
          emitted (loop (runLoop (loop s iT).1 pre).1 j).2 =
            [Payload.data [v.ax, v.ay, v.az, v.gx, v.gy, v.gz]] ∧
          (Payload.data [v.ax, v.ay, v.az, v.gx, v.gy, v.gz]).size = 24 ∧
          ∀ b, Payload.header b ∉ emitted (loop (runLoop (loop s iT).1 pre).1 j).2) ∧
      (eligible (runLoop (loop s iT).1 pre).1 j = false →
        emitted (loop (runLoop (loop s iT).1 pre).1 j).2 = []) := by
  have hch : (loop s iT).1.isRecording ≠ s.isRecording := by
    rw [hT, hidle]; decide
  obtain ⟨_, hlss, hdec⟩ := loop_change s iT hch
  have hlow : iT.pin = LOW := by
    rw [hT] at hdec
    exact of_decide_eq_true hdec.symm
  have himuT : (loop s iT).1.imuChar = true := by rw [(loop_frame s iT).1]; exact himu
  constructor
  · rcases loop_emitted s iT with ⟨hsame, _⟩ | ⟨_, hem⟩
    · exact absurd hsame hch
    · rw [hem, himu, hT]; rfl
  · intro pre j post hsplit
    have hpre : ∀ k ∈ pre, k.pin = LOW := by
      intro k hk
      exact (hrest k (by rw [hsplit]; exact List.mem_append_left _ hk)).1
    have hj := hrest j (by rw [hsplit]; exact List.mem_append_right _ (List.mem_cons_self j post))
    obtain ⟨r1, r2, r3⟩ := recording_low_run pre (loop s iT).1 hT (by rw [hlss, hlow]) himuT hpre
    obtain ⟨_, hdata, hnone⟩ := recording_low_tick (runLoop (loop s iT).1 pre).1 j r1 r2 r3 hj.1
    refine ⟨?_, hnone⟩
    intro he
    obtain ⟨v, hv⟩ := Option.isSome_iff_exists.mp hj.2
    have hem := hdata v he hv
    refine ⟨v, hv, hem, by simp [Payload.size], ?_⟩
    intro b
    rw [hem]
    simp

/-- Instance of C11: recording starts at 125, data at 150 and 175, nothing at
180. -/
theorem scenario_A_witness :
    emitted (loop pendingLow (tickAt 125 LOW)).2 = [Payload.header 0x01] ∧
    ∃ v, icmRead (tickAt 175 LOW).bus = some v ∧
      emitted (loop (runLoop (loop pendingLow (tickAt 125 LOW)).1 [tickAt 150 LOW]).1
        (tickAt 175 LOW)).2 = [Payload.data [v.ax, v.ay, v.az, v.gx, v.gy, v.gz]] ∧
      (Payload.data [v.ax, v.ay, v.az, v.gx, v.gy, v.gz]).size = 24 ∧
      ∀ b, Payload.header b ∉
        emitted (loop (runLoop (loop pendingLow (tickAt 125 LOW)).1 [tickAt 150 LOW]).1
          (tickAt 175 LOW)).2 :=
  ⟨(scenario_A pendingLow (tickAt 125 LOW) [tickAt 150 LOW, tickAt 175 LOW, tickAt 180 LOW]
      rfl rfl rfl (by decide) (by decide)).1,
    ((scenario_A pendingLow (tickAt 125 LOW) [tickAt 150 LOW, tickAt 175 LOW, tickAt 180 LOW]
      rfl rfl rfl (by decide) (by decide)).2
        [tickAt 150 LOW] (tickAt 175 LOW) [tickAt 180 LOW] rfl).1 (by decide)⟩

/-! ## Scheduling (C12) -/

/-- An iteration that is not eligible leaves the state alone and only waits. -/
theorem loop_not_eligible (s : State) (i : LoopInput) (h : eligible s i = false) :
    (loop s i).1 = s ∧
    ((loop s i).2 = [Effect.delay 5] ∨ (loop s i).2 = [Effect.delay 1]) := by
  rcases Bool.eq_false_or_eq_true s.streamOn with hs | hs
  · have hp : sub32 (u32 i.now) s.last < PERIOD_MS := by
      simp only [eligible, hs, Bool.true_and, decide_eq_false_iff_not, Nat.not_le] at h
      exact h
    rw [loop_early s i hs hp]
    exact ⟨rfl, Or.inr rfl⟩
  · rw [loop_gated s i hs]
    exact ⟨rfl, Or.inl rfl⟩

/-- An eligible iteration records its timestamp and reads the sensor. -/
theorem loop_eligible (s : State) (i : LoopInput) (h : eligible s i = true) :
    (loop s i).1.last = u32 i.now ∧ Effect.sensorRead ∈ (loop s i).2 := by
  simp only [eligible, Bool.and_eq_true, decide_eq_true_eq] at h
  rcases loop_branches s i with ⟨hs, _⟩ | ⟨_, hp, _⟩ | ⟨_, _, _, hl⟩ | ⟨v, _, _, _, hl⟩
  · rw [h.1] at hs; exact absurd hs (by simp)
  · exact absurd h.2 (Nat.not_le.mpr hp)
  · rw [hl]; exact ⟨rfl, by simp⟩
  · rw [hl]
    refine ⟨?_, by simp⟩
    simp only [acceptLevel, debounceUpdate]
    split_ifs <;> rfl

theorem onWrite_last (s : State) (v : List Nat) : (onWrite s v).last = s.last := by
  unfold onWrite
  split <;> rfl

/-- Over events none of which is an eligible iteration, `last` is kept. -/
theorem noTick_last (es : List Step) :
    ∀ (s : State), noTick s es = true → (run s es).1.last = s.last := by
  induction es with
  | nil => intro s _; rfl
  | cons e es ih =>
    intro s h
    cases e with
    | tick i =>
      simp only [noTick, Bool.and_eq_true, Bool.not_eq_true'] at h
      have hl := (loop_not_eligible s i h.1).1
      simp only [run, step]
      rw [ih (loop s i).1 h.2, hl]
    | ctrl v =>
      simp only [noTick] at h
      simp only [run, step]
      rw [ih (onWrite s v) h, onWrite_last]

/-- C12 (ticks never run early).  (1) An iteration that reads the sensor, samples
the pin, sends a payload or changes the state has passed the gate and the
period check `now - last >= PERIOD_MS`.  (2) An iteration that fails the
period check changes no state and sends nothing.  (3) An iteration that passes
both sets `last` to its timestamp, also when its sensor read fails.  (4) From
boot `last` is 0 until the first eligible iteration.  (5) In any run, with
control writes interleaved, if `i1` and `i2` are consecutive eligible
iterations, `last` at `i2` is the timestamp of `i1` and the timestamps are at
least `PERIOD_MS` apart (modulo `2^32`, and as elapsed times when in order). -/
theorem ticks_never_early :
    (∀ (s : State) (i : LoopInput),
      (Effect.sensorRead ∈ (loop s i).2 ∨ Effect.pinRead ∈ (loop s i).2 ∨
        (∃ p, Effect.notify p ∈ (loop s i).2) ∨ (loop s i).1 ≠ s) →
      s.streamOn = true ∧ PERIOD_MS ≤ sub32 (u32 i.now) s.last) ∧
    (∀ (s : State) (i : LoopInput),
      s.streamOn = true → sub32 (u32 i.now) s.last < PERIOD_MS →
      (loop s i).1 = s ∧ (loop s i).2 = [Effect.delay 1] ∧ emitted (loop s i).2 = []) ∧
    (∀ (s : State) (i : LoopInput),
      s.streamOn = true → PERIOD_MS ≤ sub32 (u32 i.now) s.last →
      (loop s i).1.last = u32 i.now ∧
      (icmRead i.bus = none → (loop s i).1 = { s with last := u32 i.now })) ∧
    (∀ (pre : List Step), noTick initState pre = true → (run initState pre).1.last = 0) ∧
    (∀ (s : State) (pre : List Step) (i1 : LoopInput) (mid : List Step) (i2 : LoopInput),
      eligible (run s pre).1 i1 = true →
      noTick (loop (run s pre).1 i1).1 mid = true →
      eligible (run (loop (run s pre).1 i1).1 mid).1 i2 = true →
      (run (loop (run s pre).1 i1).1 mid).1.last = u32 i1.now ∧
      PERIOD_MS ≤ sub32 (u32 i2.now) (u32 i1.now) ∧
      (i1.now ≤ i2.now → i1.now + PERIOD_MS ≤ i2.now)) := by
  refine ⟨?_, ?_, ?_, ?_, ?_⟩
  · intro s i h
    cases he : eligible s i with
    | true =>
      simp only [eligible, Bool.and_eq_true, decide_eq_true_eq] at he
      exact he
    | false =>
      obtain ⟨h1, h2⟩ := loop_not_eligible s i he
      exfalso
      rcases h with h | h | ⟨p, h⟩ | h
      · rcases h2 with h2 | h2 <;> rw [h2] at h <;> simp at h
      · rcases h2 with h2 | h2 <;> rw [h2] at h <;> simp at h
      · rcases h2 with h2 | h2 <;> rw [h2] at h <;> simp at h
      · exact h h1
  · intro s i hs hp
    rw [loop_early s i hs hp]
    exact ⟨rfl, rfl, rfl⟩
  · intro s i hs hp
    refine ⟨(loop_eligible s i (by simp [eligible, hs, hp])).1, ?_⟩
    intro hr
    rw [loop_failed s i hs hp hr]
  · intro pre h
    exact noTick_last pre initState h
  · intro s pre i1 mid i2 h1 hmid h2
    have hlast : (run (loop (run s pre).1 i1).1 mid).1.last = u32 i1.now := by
      rw [noTick_last mid _ hmid]
      exact (loop_eligible _ i1 h1).1
    simp only [eligible, Bool.and_eq_true, decide_eq_true_eq] at h2
    have hge : PERIOD_MS ≤ sub32 (u32 i2.now) (u32 i1.now) := by
      rw [← hlast]; exact h2.2
    refine ⟨hlast, hge, ?_⟩
    intro hle
    have := sub32_u32_le i2.now i1.now hle
    omega

/-- Instance of C12: eligible iterations at 130 and 155 with a gate toggle and an
early iteration in between. -/
theorem ticks_never_early_witness :
    (run (loop (run initState [Step.tick (tickAt 10 HIGH)]).1 (tickAt 130 LOW)).1
      [Step.ctrl [0], Step.tick (tickAt 140 LOW), Step.ctrl [1],
        Step.tick (tickAt 150 LOW)]).1.last = u32 130 ∧
    PERIOD_MS ≤ sub32 (u32 (tickAt 155 LOW).now) (u32 (tickAt 130 LOW).now) ∧
    ((tickAt 130 LOW).now ≤ (tickAt 155 LOW).now →
      (tickAt 130 LOW).now + PERIOD_MS ≤ (tickAt 155 LOW).now) :=
  ticks_never_early.2.2.2.2 initState [Step.tick (tickAt 10 HIGH)] (tickAt 130 LOW)
    [Step.ctrl [0], Step.tick (tickAt 140 LOW), Step.ctrl [1], Step.tick (tickAt 150 LOW)]
    (tickAt 155 LOW) (by decide) (by decide) (by decide)

/-! ## Sensor initialisation (C13, C15) -/

/-- The outcome of `icmInit`, by the first transaction that fails. -/
theorem icmInit_cases (bus : InitBus) :
    (bus.w1 ≠ 0 ∧ (icmInit bus).ok = false ∧
      busTxns (icmInit bus).events = [InitEvent.write 0x6B 0x01]) ∨
    (bus.w1 = 0 ∧ bus.w2 ≠ 0 ∧ (icmInit bus).ok = false ∧
      busTxns (icmInit bus).events = [InitEvent.write 0x6B 0x01, InitEvent.write 0x1C 0x00]) ∨
    (bus.w1 = 0 ∧ bus.w2 = 0 ∧ bus.w3 ≠ 0 ∧ (icmInit bus).ok = false ∧
      busTxns (icmInit bus).events =
        [InitEvent.write 0x6B 0x01, InitEvent.write 0x1C 0x00, InitEvent.write 0x1B 0x00]) ∨
    (bus.w1 = 0 ∧ bus.w2 = 0 ∧ bus.w3 = 0 ∧ i2cReadBytes bus.ident 1 = none ∧
      (icmInit bus).ok = false ∧
      busTxns (icmInit bus).events =
        [InitEvent.write 0x6B 0x01, InitEvent.write 0x1C 0x00, InitEvent.write 0x1B 0x00,
          InitEvent.read 0x75 1]) ∨
    (∃ buf, bus.w1 = 0 ∧ bus.w2 = 0 ∧ bus.w3 = 0 ∧ i2cReadBytes bus.ident 1 = some buf ∧
      (icmInit bus).ok = true ∧ (icmInit bus).who = buf.getD 0 0 ∧
      busTxns (icmInit bus).events =
        [InitEvent.write 0x6B 0x01, InitEvent.write 0x1C 0x00, InitEvent.write 0x1B 0x00,
          InitEvent.read 0x75 1]) := by
  by_cases h1 : bus.w1 = 0
  · by_cases h2 : bus.w2 = 0
    · by_cases h3 : bus.w3 = 0
      · cases hr : i2cReadBytes bus.ident 1 with
        | none =>
          right; right; right; left
          refine ⟨h1, h2, h3, rfl, ?_, ?_⟩ <;>
            simp [icmInit, i2cWrite, h1, h2, h3, hr, busTxns, REG_PWR_MGMT_1,
              REG_ACCEL_CONFIG, REG_GYRO_CONFIG, REG_WHO_AM_I]
        | some buf =>
          right; right; right; right
          refine ⟨buf, h1, h2, h3, rfl, ?_, ?_, ?_⟩ <;>
            simp [icmInit, i2cWrite, h1, h2, h3, hr, busTxns, REG_PWR_MGMT_1,
              REG_ACCEL_CONFIG, REG_GYRO_CONFIG, REG_WHO_AM_I]
      · right; right; left
        refine ⟨h1, h2, h3, ?_, ?_⟩ <;>
          simp [icmInit, i2cWrite, h1, h2, h3, busTxns, REG_PWR_MGMT_1,
            REG_ACCEL_CONFIG, REG_GYRO_CONFIG]
    · right; left
      refine ⟨h1, h2, ?_, ?_⟩ <;>
        simp [icmInit, i2cWrite, h1, h2, busTxns, REG_PWR_MGMT_1, REG_ACCEL_CONFIG]
  · left
    refine ⟨h1, ?_, ?_⟩ <;> simp [icmInit, i2cWrite, h1, busTxns, REG_PWR_MGMT_1]

/-- C13, counterexample to the claim as stated.  On a bus where every
transaction succeeds, `icmInit` returns success with the identity byte `0x00`,
with `0xFF`, and with any other value: no identity value is rejected. -/
theorem icmInit_accepts_any_identity :
    (icmInit (initBusOk 0x00)).ok = true ∧ (icmInit (initBusOk 0x00)).who = 0x00 ∧
    (icmInit (initBusOk 0xFF)).ok = true ∧ (icmInit (initBusOk 0xFF)).who = 0xFF ∧
    ∀ who : Int, (icmInit (initBusOk who)).ok = true := by
  refine ⟨by decide, by decide, by decide, by decide, ?_⟩
  intro who
  simp [icmInit, i2cWrite, initBusOk, i2cReadBytes]

/-- C13, as amended.  `icmInit` returns failure whenever one of the three
register writes or the identity read fails; when all four transactions succeed
it returns success whatever byte was read from the identity register, and
leaves that byte in `who`. -/
theorem icmInit_failure (bus : InitBus) :
    ((bus.w1 ≠ 0 ∨ bus.w2 ≠ 0 ∨ bus.w3 ≠ 0 ∨ i2cReadBytes bus.ident 1 = none) →
      (icmInit bus).ok = false) ∧
    (∀ buf, bus.w1 = 0 → bus.w2 = 0 → bus.w3 = 0 →
      i2cReadBytes bus.ident 1 = some buf →
      (icmInit bus).ok = true ∧ (icmInit bus).who = buf.getD 0 0) := by
  rcases icmInit_cases bus with ⟨h1, hk, _⟩ | ⟨h1, h2, hk, _⟩ | ⟨h1, h2, h3, hk, _⟩ |
    ⟨h1, h2, h3, hr, hk, _⟩ | ⟨buf, h1, h2, h3, hr, hk, hw, _⟩
  · exact ⟨fun _ => hk, fun _ g1 _ _ _ => absurd g1 h1⟩
  · exact ⟨fun _ => hk, fun _ _ g2 _ _ => absurd g2 h2⟩
  · exact ⟨fun _ => hk, fun _ _ _ g3 _ => absurd g3 h3⟩
  · refine ⟨fun _ => hk, fun b _ _ _ gr => ?_⟩
    rw [hr] at gr
    exact absurd gr (by simp)
  · constructor
    · intro h
      rcases h with h | h | h | h
      · exact absurd h1 h
      · exact absurd h2 h
      · exact absurd h3 h
      · rw [hr] at h; exact absurd h (by simp)
    · intro b _ _ _ gr
      rw [hr] at gr
      simp only [Option.some.injEq] at gr
      subst gr
      exact ⟨hk, hw⟩

/-- Instance of C13 as amended: a failing second write, and a bus answering
`0x11`. -/
theorem icmInit_failure_witness :
    (icmInit { initBusOk 0x11 with w2 := 2 }).ok = false ∧
    (icmInit (initBusOk 0x11)).ok = true ∧ (icmInit (initBusOk 0x11)).who = [0x11].getD 0 0 :=
  ⟨(icmInit_failure { initBusOk 0x11 with w2 := 2 }).1 (Or.inr (Or.inl (by decide))),
    (icmInit_failure (initBusOk 0x11)).2 [0x11] rfl rfl rfl rfl⟩

/-- C15 (initialisation order).  The bus transactions of `icmInit` are a prefix
of write(0x6B, 0x01), write(0x1C, 0x00), write(0x1B, 0x00), read(0x75, 1 byte),
in that order; the sequence ends with the first transaction that fails; and
`icmInit` returns success exactly when all four succeed. -/
theorem icmInit_order (bus : InitBus) :
    busTxns (icmInit bus).events <+:
      [InitEvent.write 0x6B 0x01, InitEvent.write 0x1C 0x00, InitEvent.write 0x1B 0x00,
        InitEvent.read 0x75 1] ∧
    (bus.w1 ≠ 0 → busTxns (icmInit bus).events = [InitEvent.write 0x6B 0x01]) ∧
    (bus.w1 = 0 → bus.w2 ≠ 0 →
      busTxns (icmInit bus).events =
        [InitEvent.write 0x6B 0x01, InitEvent.write 0x1C 0x00]) ∧
    (bus.w1 = 0 → bus.w2 = 0 → bus.w3 ≠ 0 →
      busTxns (icmInit bus).events =
        [InitEvent.write 0x6B 0x01, InitEvent.write 0x1C 0x00, InitEvent.write 0x1B 0x00]) ∧
    (bus.w1 = 0 → bus.w2 = 0 → bus.w3 = 0 →
      busTxns (icmInit bus).events =
        [InitEvent.write 0x6B 0x01, InitEvent.write 0x1C 0x00, InitEvent.write 0x1B 0x00,
          InitEvent.read 0x75 1]) ∧
    ((icmInit bus).ok = true ↔
      bus.w1 = 0 ∧ bus.w2 = 0 ∧ bus.w3 = 0 ∧ (i2cReadBytes bus.ident 1).isSome = true) := by
  rcases icmInit_cases bus with ⟨h1, hk, ht⟩ | ⟨h1, h2, hk, ht⟩ | ⟨h1, h2, h3, hk, ht⟩ |
    ⟨h1, h2, h3, hr, hk, ht⟩ | ⟨buf, h1, h2, h3, hr, hk, _, ht⟩
  · refine ⟨?_, fun _ => ht, fun g => absurd g h1, fun g => absurd g h1,
      fun g => absurd g h1, ?_⟩
    · rw [ht]; exact ⟨_, rfl⟩
    · rw [hk]; constructor
      · intro h; exact absurd h (by simp)
      · intro h; exact absurd h.1 h1
  · refine ⟨?_, fun g => absurd h1 g, fun _ _ => ht, fun _ g => absurd g h2,
      fun _ g => absurd g h2, ?_⟩
    · rw [ht]; exact ⟨_, rfl⟩
    · rw [hk]; constructor
      · intro h; exact absurd h (by simp)
      · intro h; exact absurd h.2.1 h2
  · refine ⟨?_, fun g => absurd h1 g, fun _ g => absurd h2 g, fun _ _ _ => ht,
      fun _ _ g => absurd g h3, ?_⟩
    · rw [ht]; exact ⟨_, rfl⟩
    · rw [hk]; constructor
      · intro h; exact absurd h (by simp)
      · intro h; exact absurd h.2.2.1 h3
  · refine ⟨?_, fun g => absurd h1 g, fun _ g => absurd h2 g, fun _ _ g => absurd h3 g,
      fun _ _ _ => ht, ?_⟩
    · rw [ht]
    · rw [hk, hr]; constructor
      · intro h; exact absurd h (by simp)
      · intro h; exact absurd h.2.2.2 (by simp)
  · refine ⟨?_, fun g => absurd h1 g, fun _ g => absurd h2 g, fun _ _ g => absurd h3 g,
      fun _ _ _ => ht, ?_⟩
    · rw [ht]
    · rw [hk, hr]; simp [h1, h2, h3]

/-- Instance of C15: the third write is not acknowledged. -/
theorem icmInit_order_witness :
    busTxns (icmInit { initBusOk 0x11 with w3 := 2 }).events =
      [InitEvent.write 0x6B 0x01, InitEvent.write 0x1C 0x00, InitEvent.write 0x1B 0x00] :=
  (icmInit_order { initBusOk 0x11 with w3 := 2 }).2.2.2.1 rfl rfl (by decide)

/-! ## A level change restarts the debounce clock (C14) -/

/-- Iterations with the gate closed change nothing. -/
theorem runLoop_gated (s : State) (is : List LoopInput) (hoff : s.streamOn = false) :
    runLoop s is = (s, List.replicate is.length (Effect.delay 5)) := by
  induction is with
  | nil => rfl
  | cons j js ih => simp [runLoop, loop_gated s j hoff, ih, List.replicate_succ]

theorem sub32_self (x : Nat) : sub32 x x = 0 := by
  unfold sub32 U32
  omega

/-- C14 (a sampled level change only restarts the debounce clock).  On a
successful iteration whose sampled level differs from `last_switch_state`:
`last_switch_state` becomes the sampled level and `last_debounce_time` the
`millis()` reading of line 195; if the reading of the debounce check is at most
`DEBOUNCE_MS` after it, `isRecording` is unchanged and no header is sent; and if
the clock readings of the iteration are one value, `last_debounce_time` is the
iteration's timestamp `now` and again nothing is accepted.  In particular,
after any number of iterations with the gate closed and a control write that
reopens it, a level change sampled by the first successful iteration starts its
debounce interval at that iteration. -/
theorem level_change_restarts_clock :
    (∀ (s : State) (i : LoopInput),
      successful s i = true → i.pin ≠ s.last_switch_state →
      (loop s i).1.last_switch_state = i.pin ∧
      (loop s i).1.last_debounce_time = u32 i.tDebounce ∧
      (sub32 (u32 i.tCheck) (u32 i.tDebounce) ≤ DEBOUNCE_MS →
        (loop s i).1.isRecording = s.isRecording ∧
        ∀ b, Payload.header b ∉ emitted (loop s i).2) ∧
      (i.tDebounce = i.now → i.tCheck = i.now →
        (loop s i).1.last_debounce_time = u32 i.now ∧
        (loop s i).1.last_debounce_time = (loop s i).1.last ∧
        (loop s i).1.isRecording = s.isRecording ∧
        ∀ b, Payload.header b ∉ emitted (loop s i).2)) ∧
    (∀ (s : State) (off : List LoopInput) (b : Nat) (rest : List Nat) (i : LoopInput),
      s.streamOn = false → b ≠ 0 →
      successful (onWrite (runLoop s off).1 (b :: rest)) i = true →
      i.pin ≠ s.last_switch_state →
      (loop (onWrite (runLoop s off).1 (b :: rest)) i).1.last_switch_state = i.pin ∧
      (loop (onWrite (runLoop s off).1 (b :: rest)) i).1.last_debounce_time =
        u32 i.tDebounce ∧
      (sub32 (u32 i.tCheck) (u32 i.tDebounce) ≤ DEBOUNCE_MS →
        (loop (onWrite (runLoop s off).1 (b :: rest)) i).1.isRecording = s.isRecording)) := by
  have main : ∀ (s : State) (i : LoopInput),
      successful s i = true → i.pin ≠ s.last_switch_state →
      (loop s i).1.last_switch_state = i.pin ∧
      (loop s i).1.last_debounce_time = u32 i.tDebounce ∧
      (sub32 (u32 i.tCheck) (u32 i.tDebounce) ≤ DEBOUNCE_MS →
        (loop s i).1.isRecording = s.isRecording) ∧
      (loop s i).1.last = u32 i.now := by
    intro s i hok hchg
    have hel : eligible s i = true := by
      simp only [successful, Bool.and_eq_true] at hok
      simp only [eligible, Bool.and_eq_true]
      exact hok.1
    rcases loop_window s i with ⟨_, _, _, hno⟩ | ⟨hd, hl, hr, _⟩
    · rw [hok] at hno; exact absurd hno (by simp)
    · have hd2 : (debounceUpdate s i).last_debounce_time = u32 i.tDebounce := by
        simp [debounceUpdate, hchg]
      have hl2 : (debounceUpdate s i).last_switch_state = i.pin := by
        simp [debounceUpdate, hchg]
      refine ⟨by rw [hl, hl2], by rw [hd, hd2], ?_, (loop_eligible s i hel).1⟩
      intro hle
      rw [hr, (acceptLevel_frame (debounceUpdate s i) i).2.2 (by rw [hd2]; exact hle)]
      exact (debounceUpdate_frame s i).1
  constructor
  · intro s i hok hchg
    obtain ⟨m1, m2, m3, m4⟩ := main s i hok hchg
    refine ⟨m1, m2, ?_, ?_⟩
    · intro hle
      exact ⟨m3 hle, fun b hb => loop_header_changes s i b hb (m3 hle)⟩
    · intro h1 h2
      have hle : sub32 (u32 i.tCheck) (u32 i.tDebounce) ≤ DEBOUNCE_MS := by
        rw [h1, h2, sub32_self]
        exact Nat.zero_le _
      refine ⟨by rw [m2, h1], by rw [m2, m4, h1], m3 hle, ?_⟩
      exact fun b hb => loop_header_changes s i b hb (m3 hle)
  · intro s off b rest i hoff hb hok hchg
    have hrun := runLoop_gated s off hoff
    have hst : onWrite (runLoop s off).1 (b :: rest) = { s with streamOn := true } := by
      rw [hrun]
      simp [onWrite, hb]
    rw [hst] at hok ⊢
    obtain ⟨m1, m2, m3, _⟩ := main { s with streamOn := true } i hok hchg
    exact ⟨m1, m2, m3⟩

/-- Instance of C14: recording, the switch goes HIGH while the gate is closed and
is sampled at 5000 after the gate reopens. -/
theorem level_change_restarts_clock_witness :
    (loop recordingLow (tickAt 1000 HIGH)).1.last_debounce_time = u32 1000 ∧
    (loop recordingLow (tickAt 1000 HIGH)).1.isRecording = true ∧
    (loop (onWrite (runLoop gatedOff [tickAt 2000 HIGH, tickAt 3000 HIGH]).1 [1])
      (tickAt 5000 HIGH)).1.last_debounce_time = u32 5000 :=
  ⟨(level_change_restarts_clock.1 recordingLow (tickAt 1000 HIGH) (by decide) (by decide)).2.1,
    ((level_change_restarts_clock.1 recordingLow (tickAt 1000 HIGH) (by decide)
      (by decide)).2.2.2 rfl rfl).2.2.1,
    (level_change_restarts_clock.2 gatedOff [tickAt 2000 HIGH, tickAt 3000 HIGH] 1 []
      (tickAt 5000 HIGH) rfl (by decide) (by decide) (by decide)).2.1⟩

/-! ## Well-formed output stream (C16) -/

theorem onWrite_frame (s : State) (v : List Nat) :
    (onWrite s v).isRecording = s.isRecording ∧ (onWrite s v).imuChar = s.imuChar := by
  unfold onWrite
  split <;> exact ⟨rfl, rfl⟩

/-- What the recogniser accepts can be completed to a word of `(H1 D* H2)*`:
directly when no `H1` is open, and after the pending data and `H2` when one
is. -/
theorem framed_complete (ps : List Payload) :
    (framed false ps = true → ∃ suf, Frames (ps ++ suf)) ∧
    (framed true ps = true →
      ∃ (ds : List (List ℚ)) (w suf : List Payload),
        ps ++ suf = ds.map Payload.data ++ Payload.header 0x02 :: w ∧
        (∀ d ∈ ds, (Payload.data d).size = 24) ∧ Frames w) := by
  induction ps with
  | nil =>
    refine ⟨fun _ => ⟨[], Frames.nil⟩, fun _ => ⟨[], [], [Payload.header 0x02], rfl, ?_, Frames.nil⟩⟩
    intro d hd
    simp at hd
  | cons p ps ih =>
    cases p with
    | header b =>
      constructor
      · intro h
        simp only [framed, Bool.false_eq_true, if_false, Bool.and_eq_true, beq_iff_eq] at h
        obtain ⟨ds, w, suf, heq, hds, hw⟩ := ih.2 h.2
        refine ⟨suf, ?_⟩
        rw [h.1, List.cons_append, heq]
        exact Frames.frame ds w hds hw
      · intro h
        simp only [framed, if_true, Bool.and_eq_true, beq_iff_eq] at h
        obtain ⟨suf, hsuf⟩ := ih.1 h.2
        refine ⟨[], ps ++ suf, suf, ?_, ?_, hsuf⟩
        · rw [h.1]; rfl
        · intro d hd
          simp at hd
    | data vals =>
      constructor
      · intro h
        simp [framed] at h
      · intro h
        simp only [framed, Bool.true_and, Bool.and_eq_true, decide_eq_true_eq] at h
        obtain ⟨ds, w, suf, heq, hds, hw⟩ := ih.2 h.2
        refine ⟨vals :: ds, w, suf, ?_, ?_, hw⟩
        · rw [List.cons_append, heq]; rfl
        · intro d hd
          rcases List.mem_cons.mp hd with hd | hd
          · rw [hd]; exact h.1
          · exact hds d hd

/-- With the characteristic present, the payloads of any run are accepted by the
recogniser started in the current recording state. -/
theorem run_framed (es : List Step) :
    ∀ (s : State), s.imuChar = true →
      framed s.isRecording (emitted (run s es).2) = true := by
  induction es with
  | nil => intro s _; simp [run, emitted, framed]
  | cons e es ih =>
    intro s himu
    cases e with
    | ctrl v =>
      have hfr := onWrite_frame s v
      have := ih (onWrite s v) (by rw [hfr.2]; exact himu)
      rw [hfr.1] at this
      simpa [run, step] using this
    | tick i =>
      have himu2 : (loop s i).1.imuChar = true := by rw [(loop_frame s i).1]; exact himu
      have hrest := ih (loop s i).1 himu2
      simp only [run, step, emitted_append]
      rcases loop_emitted s i with ⟨hsame, hem | ⟨v, _, hrec, _, hem⟩⟩ | ⟨hne, hem⟩
      · rw [hem, ← hsame]
        exact hrest
      · rw [hem, hrec]
        rw [hsame, hrec] at hrest
        simp [framed, Payload.size, hrest]
      · rw [hem, himu]
        cases hold : s.isRecording with
        | true =>
          have hnew : (loop s i).1.isRecording = false := by
            cases h : (loop s i).1.isRecording with
            | false => rfl
            | true => exact absurd (h.trans hold.symm) hne
          rw [hnew] at hrest ⊢
          simp [framed, hrest]
        | false =>
          have hnew : (loop s i).1.isRecording = true := by
            cases h : (loop s i).1.isRecording with
            | true => rfl
            | false => exact absurd (h.trans hold.symm) hne
          rw [hnew] at hrest ⊢
          simp [framed, hrest]

/-- C16 (well-formed output stream).  For every run from the boot state, with
iterations of `loop()` and control writes interleaved in any order and any
clock values, pin levels and sensor results, the sequence of payloads sent is a
prefix of a word of `(H1 D* H2)*`, with `H1 = [0x01]`, `H2 = [0x02]` and `D` a
data payload of 24 bytes; equivalently it is accepted by the recogniser
`framed` started with no header open. -/
theorem output_well_formed (es : List Step) :
    framed false (emitted (run initState es).2) = true ∧
    ∃ suf, Frames (emitted (run initState es).2 ++ suf) := by
  have h := run_framed es initState rfl
  exact ⟨h, (framed_complete _).1 h⟩

/-! ## Range of the converted values (C17) -/

/-- Bounds of a 16-bit word divided by the acceleration scale. -/
theorem acc_range (z : Int) (hlo : -32768 ≤ z) (hhi : z ≤ 32767) :
    -2 ≤ divF32 z ACC_LSB_PER_G ∧ divF32 z ACC_LSB_PER_G ≤ 32767 / 16384 := by
  have h1 : (-32768 : ℚ) ≤ z := by exact_mod_cast hlo
  have h2 : (z : ℚ) ≤ 32767 := by exact_mod_cast hhi
  rw [divF32_acc z hlo hhi]
  constructor <;> linarith

/-- C17, counterexample to the claim as stated.  For the block `extremeBytes`,
whose angular-rate words are 32767 on X and -32768 on Y, `icmRead` returns
`gx = 16392505/65536`, which is above `32767/131`, and `gy = -16393005/65536`,
which is below `-32768/131`. -/
theorem gyro_exceeds_quotient_range :
    icmRead (busOk extremeBytes) = some (convert (extremeBytes.map Int.toNat)) ∧
    (convert (extremeBytes.map Int.toNat)).gx = 16392505 / 65536 ∧
    ¬ ((convert (extremeBytes.map Int.toNat)).gx ≤ 32767 / 131) ∧
    (convert (extremeBytes.map Int.toNat)).gy = -16393005 / 65536 ∧
    ¬ (-32768 / 131 ≤ (convert (extremeBytes.map Int.toNat)).gy) := by
  have hx : s16 (extremeBytes.map Int.toNat) 8 = 32767 := by decide
  have hy : s16 (extremeBytes.map Int.toNat) 10 = -32768 := by decide
  have hgx : (convert (extremeBytes.map Int.toNat)).gx = 16392505 / 65536 := by
    show divF32 (s16 (extremeBytes.map Int.toNat) 8) GYR_LSB_PER_DPS = 16392505 / 65536
    rw [hx]
    exact divF32_gyr_max
  have hgy : (convert (extremeBytes.map Int.toNat)).gy = -16393005 / 65536 := by
    show divF32 (s16 (extremeBytes.map Int.toNat) 10) GYR_LSB_PER_DPS = -16393005 / 65536
    rw [hy]
    exact divF32_gyr_min
  refine ⟨rfl, hgx, ?_, hgy, ?_⟩
  · rw [hgx]; norm_num
  · rw [hgy]; norm_num

/-- C17, as amended (converted values stay within the configured full-scale
range).  The word decoded by `s16` is always in `[-32768, 32767]`; every
acceleration output of a successful `icmRead` lies in `[-2, 32767/16384]`, which
is below 2; every angular-rate output lies in
`[-16393005/65536, 16392505/65536]`, the binary32 roundings of `-32768/131`
and `32767/131`, and so is below 250.2 in absolute value. -/
theorem converted_range :
    (∀ (raw : List Nat) (i : Nat), -32768 ≤ s16 raw i ∧ s16 raw i ≤ 32767) ∧
    ((32767 : ℚ) / 16384 < 2) ∧
    (∀ (bus : BusRead) (v : Sample), icmRead bus = some v →
      (-2 ≤ v.ax ∧ v.ax ≤ 32767 / 16384) ∧
      (-2 ≤ v.ay ∧ v.ay ≤ 32767 / 16384) ∧
      (-2 ≤ v.az ∧ v.az ≤ 32767 / 16384) ∧
      (-16393005 / 65536 ≤ v.gx ∧ v.gx ≤ 16392505 / 65536) ∧
      (-16393005 / 65536 ≤ v.gy ∧ v.gy ≤ 16392505 / 65536) ∧
      (-16393005 / 65536 ≤ v.gz ∧ v.gz ≤ 16392505 / 65536)) ∧
    (roundF32 (-32768 / 131) = -16393005 / 65536 ∧
      roundF32 (32767 / 131) = 16392505 / 65536) ∧
    ((16393005 : ℚ) / 65536 < 2502 / 10 ∧ (16392505 : ℚ) / 65536 < 2502 / 10) := by
  refine ⟨s16_range, by norm_num, ?_, ⟨?_, ?_⟩, by norm_num, by norm_num⟩
  · intro bus v hv
    unfold icmRead at hv
    split at hv
    · exact absurd hv (by simp)
    · rename_i raw _
      simp only [Option.some.injEq] at hv
      subst hv
      have g : ∀ i, -16393005 / 65536 ≤ divF32 (s16 raw i) GYR_LSB_PER_DPS ∧
          divF32 (s16 raw i) GYR_LSB_PER_DPS ≤ 16392505 / 65536 :=
        fun i => (divF32_gyr _ (s16_range raw i).1 (s16_range raw i).2).2.2
      exact ⟨acc_range _ (s16_range raw 0).1 (s16_range raw 0).2,
        acc_range _ (s16_range raw 2).1 (s16_range raw 2).2,
        acc_range _ (s16_range raw 4).1 (s16_range raw 4).2,
        g 8, g 10, g 12⟩
  · have h := divF32_gyr_min
    unfold divF32 GYR_LSB_PER_DPS at h
    rw [← h]
    norm_num
  · have h := divF32_gyr_max
    unfold divF32 GYR_LSB_PER_DPS at h
    rw [← h]
    norm_num

/-- Instance of C17 as amended: the block `sampleBytes`, whose Z acceleration is
-2 g and whose Z angular-rate word is 32767. -/
theorem converted_range_witness :
    -2 ≤ (convert (sampleBytes.map Int.toNat)).az ∧
    (convert (sampleBytes.map Int.toNat)).gz ≤ 16392505 / 65536 :=
  ⟨((converted_range.2.2.1 (busOk sampleBytes) (convert (sampleBytes.map Int.toNat))
      rfl).2.2.1).1,
    ((converted_range.2.2.1 (busOk sampleBytes) (convert (sampleBytes.map Int.toNat))
      rfl).2.2.2.2.2).2⟩

/-! ## Clock wraparound (C18) -/

/-- The 32-bit difference between a reading and an earlier one is the elapsed
time, when that is below `2^32`. -/
theorem sub32_elapsed (p d : Nat) (hd : d < U32) : sub32 (u32 (p + d)) p = d := by
  unfold sub32 u32 U32 at *
  omega

/-- C18 (clock wraparound safety).  For a previous timestamp `p` and an elapsed
time `d < 2^32`, the 32-bit difference computed by the code between the reading
`(p + d) mod 2^32` and `p` is `d`, and it is the value of
`((p + d) mod 2^32 - p) mod 2^32`; so the period check holds iff `d >= 25` and
the debounce check iff `d > 100`.  On `loop()`: with the gate on, an iteration
`d` after `last` is eligible iff `d >= PERIOD_MS`, and the acceptance block run
`d` after `last_debounce_time` accepts the sampled level iff
`d > DEBOUNCE_MS`. -/
theorem clock_wraparound_safe :
    (∀ (p d : Nat), d < 4294967296 →
      sub32 (u32 (p + d)) p = d ∧
      ((sub32 (u32 (p + d)) p : Nat) : Int) =
        ((((p + d) % 4294967296 : Nat) : Int) - ((p % 4294967296 : Nat) : Int)) % 4294967296 ∧
      (PERIOD_MS ≤ sub32 (u32 (p + d)) p ↔ 25 ≤ d) ∧
      (DEBOUNCE_MS < sub32 (u32 (p + d)) p ↔ 100 < d)) ∧
    (∀ (s : State) (i : LoopInput) (d : Nat), d < 4294967296 →
      s.streamOn = true → i.now = s.last + d →
      (eligible s i = true ↔ 25 ≤ d) ∧
      (d < 25 → loop s i = (s, [Effect.delay 1]))) ∧
    (∀ (s : State) (i : LoopInput) (d : Nat), d < 4294967296 →
      i.tCheck = s.last_debounce_time + d →
      (acceptLevel s i).state.isRecording =
        if 100 < d then decide (i.pin = LOW) else s.isRecording) := by
  refine ⟨?_, ?_, ?_⟩
  · intro p d hd
    have h := sub32_elapsed p d hd
    refine ⟨h, ?_, ?_, ?_⟩
    · rw [h]; omega
    · rw [h]; rfl
    · rw [h]; rfl
  · intro s i d hd hs hnow
    have h := sub32_elapsed s.last d hd
    rw [← hnow] at h
    constructor
    · simp only [eligible, hs, Bool.true_and, decide_eq_true_eq, h, PERIOD_MS]
    · intro hlt
      exact loop_early s i hs (by rw [h]; exact hlt)
  · intro s i d hd hchk
    have h := sub32_elapsed s.last_debounce_time d hd
    rw [← hchk] at h
    rw [acceptLevel_isRecording, h]
    rfl

/-- Instance of C18: a previous timestamp 6 ms before the counter wraps, and 30
and 101 ms elapsed. -/
theorem clock_wraparound_safe_witness :
    sub32 (u32 (4294967290 + 30)) 4294967290 = 30 ∧
    (PERIOD_MS ≤ sub32 (u32 (4294967290 + 30)) 4294967290 ↔ 25 ≤ 30) ∧
    (DEBOUNCE_MS < sub32 (u32 (4294967290 + 101)) 4294967290 ↔ 100 < 101) :=
  ⟨(clock_wraparound_safe.1 4294967290 30 (by decide)).1,
    (clock_wraparound_safe.1 4294967290 30 (by decide)).2.2.1,
    (clock_wraparound_safe.1 4294967290 101 (by decide)).2.2.2⟩

end SwingSense
